import Mathlib

/-!
# JavaGEP / cgep : a shallow embedding of the C gene-expression-programming engine

Sources embedded here: `regress.h`, `regress.c` (expression trees, decoder `r_express`,
evaluator `eval_etnode`), `gep.h`, `gep.c` (genome, population, variation operators).

Conventions of the embedding.

* A C function that can end in several ways returns an `Outcome`.
* Pointers to heap cells are addresses `Nat` into a list of cells; `none` is `NULL`.
* `char *ind` is the list of the characters of the buffer; reading outside of it is
  undefined behaviour.
* `int` values are `Int`; `pos` and `count` of `r_express` stay far below `2^31` for every
  buffer that fits in memory, so no wrap-around is modelled there.  Where a result is stored
  in a 32-bit field (`individual_length`) the wrap-around is explicit.
-/

set_option autoImplicit false

namespace GEP

/-! ## Outcomes of a C call -/

/-- How a call of a C function can end. -/
inductive Outcome (α : Type) where
  /-- normal return with a defined result -/
  | ok (v : α)
  /-- an `assert` failed: the process is aborted, nothing is returned -/
  | abort
  /-- the C standard leaves the behaviour undefined (read or write outside of an array,
      use of a local variable that was never assigned) -/
  | undef
  /-- the run was not finished with the fuel (or the random draws) at hand -/
  | timeout
  deriving DecidableEq, Repr

/-! ## regress.h : expression trees -/

/-- The enum `node_t` of regress.h. -/
inductive node_t where
  | TERMINAL
  | FUNCTION
  deriving DecidableEq, Repr

/-- The struct `et_node_t` of regress.h; `left` and `right` are addresses of cells of
    the node heap, `none` is `NULL`. -/
structure et_node_t where
  tag : Char
  ty : node_t
  left : Option Nat
  right : Option Nat
  deriving DecidableEq, Repr

/-- The cells obtained from `malloc` by `new_etnode`, in allocation order. -/
abbrev Heap := List et_node_t

/-- The function `new_etnode(c, ty)` of regress.c: a fresh cell with both children `NULL`;
    returns the new heap and the address of the cell. -/
def new_etnode (h : Heap) (c : Char) (ty : node_t) : Heap × Nat :=
  (h ++ [{ tag := c, ty := ty, left := none, right := none }], h.length)

/-- A value of type `et_node_t *` read as a tree: `null` is `NULL`. -/
inductive ETree where
  | null
  | node (tag : Char) (ty : node_t) (left right : ETree)
  deriving DecidableEq, Repr

/-- The tree below pointer `p` in heap `h`, followed for at most `fuel` levels. -/
def tree_of (h : Heap) : Nat → Option Nat → ETree
  | 0, _ => ETree.null
  | _ + 1, none => ETree.null
  | fuel + 1, some i =>
    match h[i]? with
    | none => ETree.null
    | some n => ETree.node n.tag n.ty (tree_of h fuel n.left) (tree_of h fuel n.right)

/-! ## regress.c : the decoder `r_express` -/

/-- The local variables of `r_express` inside its loops.  `ll1_cur` is the list from
    `ll1_cur` on, `ll2` the list from `ll2_head` to `ll2_cur`; both hold node addresses. -/
structure rx_state where
  heap : Heap
  ll1_cur : List Nat
  ll2 : List Nat
  count : Int
  pos : Nat
  deriving DecidableEq, Repr

/-- The inner loop `while (ll1_cur != NULL && count > 0)` of `r_express`
    (regress.c lines 188-214); one unit of fuel per iteration. -/
def rx_inner (ind : List Char) : Nat → rx_state → Outcome rx_state
  | fuel, st =>
    match st.ll1_cur with
    | [] => Outcome.ok st
    | p :: rest =>
      if st.count > 0 then
        match fuel with
        | 0 => Outcome.timeout
        | fuel + 1 =>
          match ind[st.pos]? with
          | none => Outcome.undef
          | some c =>
            let ty := if c = 'a' then node_t.TERMINAL else node_t.FUNCTION
            let count1 := if c = 'a' then st.count - 1 else st.count + 1
            let (heap1, n1) := new_etnode st.heap c ty
            let pos1 := st.pos + 1
            match heap1[p]? with
            | none => Outcome.undef
            | some nd =>
              let heap2 :=
                if nd.left = none then heap1.set p { nd with left := some n1 }
                else heap1.set p { nd with right := some n1 }
              let cur2 := if nd.left = none then p :: rest else rest
              let ll2 := if ty ≠ node_t.TERMINAL then st.ll2 ++ [n1] else st.ll2
              rx_inner ind fuel
                { heap := heap2, ll1_cur := cur2, ll2 := ll2, count := count1, pos := pos1 }
      else Outcome.ok st

/-- The outer loop `while (count > 0 && pos < len)` of `r_express`
    (regress.c lines 186-219); one unit of fuel per iteration.  The inner loop is run
    with two iterations for each node of the current list. -/
def rx_outer (ind : List Char) (len : Int) : Nat → rx_state → Outcome rx_state
  | fuel, st =>
    if st.count > 0 ∧ (st.pos : Int) < len then
      match fuel with
      | 0 => Outcome.timeout
      | fuel + 1 =>
        match rx_inner ind (2 * st.ll1_cur.length) st with
        | Outcome.ok st1 =>
          rx_outer ind len fuel { st1 with ll1_cur := st1.ll2, ll2 := [] }
        | Outcome.abort => Outcome.abort
        | Outcome.undef => Outcome.undef
        | Outcome.timeout => Outcome.timeout
    else Outcome.ok st

/-- What `r_express` hands back: the returned pointer and the node heap it points into. -/
structure rx_result where
  root : Option Nat
  heap : Heap
  deriving DecidableEq, Repr

/-- The function `r_express(ind, len)` of regress.c (lines 168-229). -/
def r_express (ind : List Char) (len : Int) : Outcome rx_result :=
  match ind[0]? with
  | none => Outcome.undef
  | some c0 =>
    if c0 = 'a' then
      let (heap, n) := new_etnode [] c0 node_t.TERMINAL
      Outcome.ok { root := some n, heap := heap }
    else
      let (heap, root) := new_etnode [] c0 node_t.FUNCTION
      match rx_outer ind len len.toNat
          { heap := heap, ll1_cur := [root], ll2 := [], count := 2, pos := 1 } with
      | Outcome.ok st =>
        if (st.pos : Int) = len ∧ st.count > 0 then
          Outcome.ok { root := none, heap := st.heap }
        else
          Outcome.ok { root := some root, heap := st.heap }
      | Outcome.abort => Outcome.abort
      | Outcome.undef => Outcome.undef
      | Outcome.timeout => Outcome.timeout

/-- The tree a result of `r_express` points to (`ETree.null` for `NULL`). -/
def rx_result.tree (r : rx_result) : ETree :=
  tree_of r.heap r.heap.length r.root

/-! ### Vocabulary for the decoder proofs -/

/-- Number of function symbols (characters other than `'a'`) among the first `k`
    characters of `ind`. -/
def rank (ind : List Char) (k : Nat) : Nat :=
  (ind.take k).countP (fun c => c != 'a')

/-- The open-slot count stays positive while the symbols `1 .. k-1` are consumed:
    for every `1 ≤ j ≤ k`, two slots per function symbol of `ind[0..j)` exceed the `j - 1`
    slots already filled. -/
def slots_open (ind : List Char) (k : Nat) : Prop :=
  ∀ j, 1 ≤ j → j ≤ k → j ≤ 2 * rank ind j

/-- The cell that holds symbol `k` once `n` symbols are consumed: the children of the
    function symbol of rank `j` are the cells `2j+1` and `2j+2`, as far as they exist. -/
def node_at (ind : List Char) (n k : Nat) : et_node_t :=
  if ind.getD k 'a' = 'a' then
    { tag := ind.getD k 'a', ty := node_t.TERMINAL, left := none, right := none }
  else
    { tag := ind.getD k 'a', ty := node_t.FUNCTION,
      left := if 2 * rank ind k + 1 < n then some (2 * rank ind k + 1) else none,
      right := if 2 * rank ind k + 2 < n then some (2 * rank ind k + 2) else none }

/-- The node heap after `n` symbols are consumed, in closed form. -/
def layout (ind : List Char) (n : Nat) : Heap :=
  (List.range n).map (node_at ind n)

/-- The invariant of the two loops of `r_express`: the heap is the level-order layout of the
    symbols consumed so far, the two lists hold, in order, the function nodes that still
    miss a child, and `count` is the number of open child slots. -/
structure rx_inv (ind : List Char) (st : rx_state) : Prop where
  pos_pos : 1 ≤ st.pos
  pos_le : st.pos ≤ ind.length
  heap_eq : st.heap = layout ind st.pos
  count_eq : st.count = 2 * (rank ind st.pos : Int) - ((st.pos : Int) - 1)
  count_nonneg : 0 ≤ st.count
  queue_len : (st.ll1_cur ++ st.ll2).length + (st.pos - 1) / 2 = rank ind st.pos
  queue_get : ∀ i q, (st.ll1_cur ++ st.ll2)[i]? = some q →
    q < st.pos ∧ (∃ c, ind[q]? = some c ∧ c ≠ 'a') ∧ rank ind q = (st.pos - 1) / 2 + i
  opened : slots_open ind (st.pos - 1)

/-- The state after one pass through the body of the inner loop of `r_express`, when the
    symbol read is `c` and the cell of the first list node `p` is `nd`. -/
def rx_next (st : rx_state) (p : Nat) (rest : List Nat) (c : Char) (nd : et_node_t) :
    rx_state :=
  { heap :=
      if nd.left = none then
        (st.heap ++ [et_node_t.mk c (if c = 'a' then node_t.TERMINAL else node_t.FUNCTION)
          none none]).set p { nd with left := some st.heap.length }
      else
        (st.heap ++ [et_node_t.mk c (if c = 'a' then node_t.TERMINAL else node_t.FUNCTION)
          none none]).set p { nd with right := some st.heap.length },
    ll1_cur := if nd.left = none then p :: rest else rest,
    ll2 := if (if c = 'a' then node_t.TERMINAL else node_t.FUNCTION) ≠ node_t.TERMINAL
      then st.ll2 ++ [st.heap.length] else st.ll2,
    count := if c = 'a' then st.count - 1 else st.count + 1,
    pos := st.pos + 1 }

/-! ### Trees: size, levels, breadth-first order -/

/-- Number of nodes of a tree. -/
def ETree.size : ETree → Nat
  | ETree.null => 0
  | ETree.node _ _ l r => 1 + l.size + r.size

/-- Number of levels of a tree. -/
def ETree.height : ETree → Nat
  | ETree.null => 0
  | ETree.node _ _ l r => 1 + max l.height r.height

/-- The tags at depth `d`, from left to right. -/
def ETree.level : ETree → Nat → List Char
  | ETree.null, _ => []
  | ETree.node c _ _ _, 0 => [c]
  | ETree.node _ _ l r, d + 1 => l.level d ++ r.level d

/-- The tags in breadth-first order: level by level, left child before right child. -/
def ETree.bfs (t : ETree) : List Char :=
  (List.range t.height).flatMap (fun d => t.level d)

/-- Every function node has a left and a right child. -/
def ETree.functions_full : ETree → Prop
  | ETree.null => True
  | ETree.node _ ty l r =>
    (ty = node_t.FUNCTION → l ≠ ETree.null ∧ r ≠ ETree.null) ∧
      l.functions_full ∧ r.functions_full

/-- The characters `s[a..b)`. -/
def slice (s : List Char) (a b : Nat) : List Char :=
  (s.drop a).take (b - a)

/-- First cell of the level below the level that starts at cell `x`, in a heap of `n`
    cells. -/
def below (ind : List Char) (n x : Nat) : Nat :=
  min n (2 * rank ind x + 1)

/-! ## regress.c : the evaluator `eval_etnode` -/

/-- The arithmetic on C `double` that `eval_etnode` uses.  The evaluator is embedded over an
    arbitrary interpretation of these operations; IEEE doubles are one of them. -/
structure DoubleOps (D : Type) where
  /-- The sum `l + r`. -/
  add : D → D → D
  /-- The difference `l - r`. -/
  sub : D → D → D
  /-- The product `l * r`. -/
  mul : D → D → D
  /-- The quotient `l / r`. -/
  div : D → D → D
  /-- The power `pow(l, r)` of math.h. -/
  pow : D → D → D
  /-- The test `r == 0`. -/
  is_zero : D → Bool
  /-- The test `r < 0`. -/
  is_neg : D → Bool
  /-- The number 0. -/
  zero : D
  /-- The literal `-1000000.0`. -/
  penalty : D
  /-- The test `0 == 0` holds. -/
  is_zero_zero : is_zero zero = true

/-- Exact rational arithmetic as an interpretation of the operations; `pow` is the power
    with the integral part of a non-negative exponent. -/
def ratOps : DoubleOps ℚ where
  add := fun l r => l + r
  sub := fun l r => l - r
  mul := fun l r => l * r
  div := fun l r => l / r
  pow := fun l r => l ^ (Rat.floor r).toNat
  is_zero := fun r => decide (r = 0)
  is_neg := fun r => decide (r < 0)
  zero := 0
  penalty := -1000000
  is_zero_zero := by decide

/-- A binary operator applied to `l` and `r`; the result is defined only when both
    operands were assigned defined values. -/
def apply2 {D : Type} (f : D → D → D) (l r : Outcome D) : Outcome D :=
  match l, r with
  | Outcome.ok a, Outcome.ok b => Outcome.ok (f a b)
  | _, _ => Outcome.undef

/-- The function `eval_etnode(n, x)` of regress.c (lines 58-104).  The locals `l`, `r` and
    `retval` are assigned on some paths only; `Outcome.undef` stands for the use of one
    that was not assigned (the function returns, but no defined number).  The function has
    no path that reports an error. -/
def eval_etnode {D : Type} (ops : DoubleOps D) : ETree → D → Outcome D
  | ETree.null, _ => Outcome.undef
  | ETree.node tag ty left right, x =>
    if ty = node_t.TERMINAL then Outcome.ok x
    else
      let l : Outcome D :=
        if left = ETree.null then Outcome.undef else eval_etnode ops left x
      let r : Outcome D :=
        if right = ETree.null then Outcome.undef else eval_etnode ops right x
      if tag = '+' then apply2 ops.add l r
      else if tag = '-' then apply2 ops.sub l r
      else if tag = '*' then apply2 ops.mul l r
      else if tag = '/' then
        match r with
        | Outcome.ok rv =>
          if ops.is_zero rv then Outcome.ok ops.penalty else apply2 ops.div l r
        | _ => Outcome.undef
      else if tag = '^' then
        match r with
        | Outcome.ok rv =>
          if ops.is_neg rv then Outcome.ok ops.penalty else apply2 ops.pow l r
        | _ => Outcome.undef
      else Outcome.undef

/-- The trees of the evaluator contract: every function node has two children and one of
    the tags `+ - * /`. -/
def ETree.arith : ETree → Prop
  | ETree.null => False
  | ETree.node tag ty l r =>
    ty = node_t.TERMINAL ∨
      ((tag = '+' ∨ tag = '-' ∨ tag = '*' ∨ tag = '/') ∧ l.arith ∧ r.arith)

/-- The recursive reference definition of the evaluator, following the specification
    (section 4.4): a terminal is `x`; `+ - *` are the arithmetic operations; `/` is the
    penalty when the right operand is 0 and the quotient otherwise.  It says nothing
    (`none`) about anything else. -/
def eval_reference {D : Type} (ops : DoubleOps D) : ETree → D → Option D
  | ETree.null, _ => none
  | ETree.node tag ty l r, x =>
    if ty = node_t.TERMINAL then some x
    else
      match eval_reference ops l x, eval_reference ops r x with
      | some a, some b =>
        if tag = '+' then some (ops.add a b)
        else if tag = '-' then some (ops.sub a b)
        else if tag = '*' then some (ops.mul a b)
        else if tag = '/' then
          (if ops.is_zero b then some ops.penalty else some (ops.div a b))
        else none
      | _, _ => none

/-- A terminal leaf with tag `c`. -/
def leaf (c : Char) : ETree :=
  ETree.node c node_t.TERMINAL ETree.null ETree.null

/-! ## gep.h, gep.c : genome and population -/

/-- The struct `gep_genome_t` of gep.h; the fields are `unsigned int`. -/
structure gep_genome_t where
  terminals : List Char
  functions : List Char
  num_terminals : Nat
  num_functions : Nat
  head_length : Nat
  max_arity : Nat
  individual_length : Nat
  genes_per_chromosome : Nat
  deriving DecidableEq, Repr

/-- The largest value of a C `int`. -/
def INT_MAX : Int := 2147483647

/-- The value an `int` expression leaves in an `unsigned int` field: the value modulo
    `2^32` (the conversion to unsigned of the two's-complement result). -/
def to_unsigned (x : Int) : Nat :=
  (x % 4294967296).toNat

/-- The function `gep_create_genome(nt, tc, nf, fc, hl, ma)` of gep.c (lines 22-54).
    `none` for `tc` or `fc` is a `NULL` array; `memcpy` reads `nt` characters of `tc`
    and `nf` characters of `fc`. -/
def gep_create_genome (nt : Int) (tc : Option (List Char)) (nf : Int)
    (fc : Option (List Char)) (hl ma : Int) : Outcome gep_genome_t :=
  if ¬ nt > 0 then Outcome.abort
  else if ¬ nf > 0 then Outcome.abort
  else if ¬ hl > 0 then Outcome.abort
  else if ¬ ma > 0 then Outcome.abort
  else
    match tc, fc with
    | none, _ => Outcome.abort
    | some _, none => Outcome.abort
    | some tc, some fc =>
      if (tc.length : Int) < nt ∨ (fc.length : Int) < nf then Outcome.undef
      else
        Outcome.ok
          { terminals := tc.take nt.toNat,
            functions := fc.take nf.toNat,
            num_terminals := to_unsigned nt,
            num_functions := to_unsigned nf,
            head_length := to_unsigned hl,
            max_arity := to_unsigned ma,
            individual_length := to_unsigned ((hl * (ma - 1)) + 1 + hl),
            genes_per_chromosome := 0 }

/-- The struct `gep_population_t` of gep.h.  `float` and `double` values are exact
    rationals.  `max_fitness` is `none` as long as nothing was assigned to it.  The fields
    `p_rist`, `p_ist`, `p_gt` and `rseed` are never read or written and are left out. -/
structure gep_population_t where
  genome : gep_genome_t
  p_x1 : ℚ
  p_x2 : ℚ
  p_m : ℚ
  num_individuals : Nat
  individuals : List (List Char)
  selectionbuffer : List (List Char)
  fitnesses : List ℚ
  max_fitness : Option ℚ
  deriving DecidableEq

/-- The constant `RAND_MAX` of stdlib.h (glibc: `2^31 - 1`, also the largest value of
    `random()`). -/
def RAND_MAX : Nat := 2147483647

/-- The expression `(double)rand() / (double)RAND_MAX` for the draw `k` of `rand()`
    (or `random()`), `0 ≤ k ≤ RAND_MAX`. -/
def unit_draw (k : Nat) : ℚ :=
  (k : ℚ) / (RAND_MAX : ℚ)

/-- The conversion `(int)x` of a double: truncation toward zero. -/
def to_int (x : ℚ) : Int :=
  if 0 ≤ x then Rat.floor x else -Rat.floor (-x)

/-- The array read `arr[i]`; outside of the array the behaviour is undefined. -/
def read_at (arr : List Char) (i : Int) : Outcome Char :=
  if i < 0 then Outcome.undef
  else
    match arr[i.toNat]? with
    | some c => Outcome.ok c
    | none => Outcome.undef

/-- The array write `arr[i] = c`; outside of the array the behaviour is undefined. -/
def write_at (arr : List Char) (i : Int) (c : Char) : Outcome (List Char) :=
  if i < 0 then Outcome.undef
  else if i.toNat < arr.length then Outcome.ok (arr.set i.toNat c)
  else Outcome.undef

/-- Sequencing of C statements: the first outcome that is not a normal return ends the
    run. -/
def Outcome.bind {α β : Type} (o : Outcome α) (f : α → Outcome β) : Outcome β :=
  match o with
  | Outcome.ok v => f v
  | Outcome.abort => Outcome.abort
  | Outcome.undef => Outcome.undef
  | Outcome.timeout => Outcome.timeout

instance : Monad Outcome where
  pure := Outcome.ok
  bind := Outcome.bind

/-! ### gep_create_population -/

/-- The symbol stored at position `j` of a new individual for the draw `k` of `random()`
    (gep.c lines 106-120). -/
def init_symbol (g : gep_genome_t) (j : Nat) (k : Nat) : Outcome Char :=
  let rnum_f := unit_draw k
  if j < g.head_length then
    let n : Int := Rat.floor (((g.num_terminals + g.num_functions : Nat) : ℚ) * rnum_f)
    if n ≥ (g.num_terminals : Int) then read_at g.functions (n - (g.num_terminals : Int))
    else read_at g.terminals n
  else read_at g.terminals (Rat.floor ((g.num_terminals : ℚ) * rnum_f))

/-- The loop over `j` of gep.c lines 105-121: the symbols of positions `j`, `j+1`, ... of
    one individual, `todo` of them, and the draws left over. -/
def create_individual (g : gep_genome_t) : Nat → Nat → List Nat →
    Outcome (List Char × List Nat)
  | 0, _, draws => Outcome.ok ([], draws)
  | todo + 1, j, draws =>
    match draws with
    | [] => Outcome.timeout
    | k :: rest =>
      (init_symbol g j k).bind fun c =>
        (create_individual g todo (j + 1) rest).bind fun r =>
          Outcome.ok (c :: r.1, r.2)

/-- The loop over `i` of gep.c lines 104-122: `todo` individuals. -/
def create_individuals (g : gep_genome_t) : Nat → List Nat →
    Outcome (List (List Char) × List Nat)
  | 0, draws => Outcome.ok ([], draws)
  | todo + 1, draws =>
    (create_individual g g.individual_length 0 draws).bind fun r =>
      (create_individuals g todo r.2).bind fun rs =>
        Outcome.ok (r.1 :: rs.1, rs.2)

/-- The function `gep_create_population(genome, ni, px1, px2, pm, mf)` of gep.c
    (lines 56-125), run on the draws of `random()`; returns the population and the draws
    left over.  The genome pointer is taken to be non-`NULL`.  The cells of
    `selectionbuffer` and `fitnesses` come from `malloc` and are not written; they show as
    NUL characters and zeros.  The parameter `mf` is not used by the function body. -/
def gep_create_population (genome : gep_genome_t) (ni : Int) (px1 px2 pm : ℚ) (mf : ℚ)
    (draws : List Nat) : Outcome (gep_population_t × List Nat) :=
  if ¬ ni > 0 then Outcome.abort
  else if ¬ px1 ≥ 0 then Outcome.abort
  else if ¬ px1 ≤ 1 then Outcome.abort
  else if ¬ px2 ≥ 0 then Outcome.abort
  else if ¬ px2 ≤ 1 then Outcome.abort
  else if ¬ pm ≥ 0 then Outcome.abort
  else if ¬ pm ≤ 1 then Outcome.abort
  else
    (create_individuals genome ni.toNat draws).bind fun r =>
      Outcome.ok
        ({ genome := genome, p_x1 := px1, p_x2 := px2, p_m := pm,
           num_individuals := ni.toNat,
           individuals := r.1,
           selectionbuffer :=
             List.replicate ni.toNat (List.replicate genome.individual_length (Char.ofNat 0)),
           fitnesses := List.replicate ni.toNat 0,
           max_fitness := none }, r.2)

/-! ### gep_next_generation -/

/-- The symbol that mutation stores at position `a` for the value draw `rv`
    (gep.c lines 181-198); `none` when nothing is stored. -/
def mutation_symbol (g : gep_genome_t) (a : Int) (rv : ℚ) : Outcome (Option Char) :=
  if a ≥ (g.head_length : Int) then
    if g.num_terminals > 1 then
      let b := to_int (rv * (g.num_terminals : ℚ))
      (read_at g.terminals b).bind fun c => Outcome.ok (some c)
    else Outcome.ok none
  else
    let b := to_int (rv * ((g.num_terminals + g.num_functions : Nat) : ℚ))
    if b > (g.num_functions : Int) then
      (read_at g.terminals (b - (g.num_functions : Int))).bind fun c => Outcome.ok (some c)
    else
      (read_at g.functions b).bind fun c => Outcome.ok (some c)

/-- The body of the mutation loop for one individual (gep.c lines 170-199). -/
def mutate_individual (p : gep_population_t) (ind : List Char) (draws : List Nat) :
    Outcome (List Char × List Nat) :=
  match draws with
  | [] => Outcome.timeout
  | k1 :: ds =>
    if unit_draw k1 < p.p_m then
      match ds with
      | k2 :: k3 :: ds2 =>
        let a := to_int (unit_draw k2 * (p.genome.individual_length : ℚ))
        let rv := unit_draw k3
        (mutation_symbol p.genome a rv).bind fun s =>
          match s with
          | some c => (write_at ind a c).bind fun ind2 => Outcome.ok (ind2, ds2)
          | none => Outcome.ok (ind, ds2)
      | _ => Outcome.timeout
    else Outcome.ok (ind, ds)

/-- The mutation loop `for (i = 0; i < p->num_individuals; i++)` (gep.c lines 169-200),
    from index `i` on, `todo` iterations. -/
def mutation_loop (p : gep_population_t) : Nat → Nat → List (List Char) → List Nat →
    Outcome (List (List Char) × List Nat)
  | 0, _, inds, draws => Outcome.ok (inds, draws)
  | todo + 1, i, inds, draws =>
    match inds[i]? with
    | none => Outcome.undef
    | some ind =>
      (mutate_individual p ind draws).bind fun r =>
        mutation_loop p todo (i + 1) (inds.set i r.1) r.2

/-- The loop `while (b == a)` of gep.c lines 213-216: draws until `b` differs from `a`. -/
def draw_other (i : Int) (a : Int) : List Nat → Outcome (Int × List Nat)
  | [] => Outcome.timeout
  | k :: ds =>
    let b := to_int ((i : ℚ) * unit_draw k)
    if b = a then draw_other i a ds else Outcome.ok (b, ds)

/-- The read `idx[a]` of the index array. -/
def read_idx (idx : List Nat) (a : Int) : Outcome Nat :=
  if a < 0 then Outcome.undef
  else
    match idx[a.toNat]? with
    | some v => Outcome.ok v
    | none => Outcome.undef

/-- The write `idx[a] = v` of the index array. -/
def write_idx (idx : List Nat) (a : Int) (v : Nat) : Outcome (List Nat) :=
  if a < 0 then Outcome.undef
  else if a.toNat < idx.length then Outcome.ok (idx.set a.toNat v)
  else Outcome.undef

/-- The call `memcpy(dst + off, src, src.length)`. -/
def memcpy_at (dst : List Char) (off : Nat) (src : List Char) : Outcome (List Char) :=
  if off + src.length ≤ dst.length then
    Outcome.ok (dst.take off ++ src ++ dst.drop (off + src.length))
  else Outcome.undef

/-- The `a` characters from offset `off` of a buffer, read by `memcpy`. -/
def memcpy_from (src : List Char) (off a : Nat) : Outcome (List Char) :=
  if off + a ≤ src.length then Outcome.ok ((src.drop off).take a) else Outcome.undef

/-- The three `memcpy` calls of gep.c lines 229-231: the `a` characters from `rpos` on
    are exchanged between the individuals `aa` and `bb`. -/
def swap_tails (inds : List (List Char)) (aa bb : Nat) (rpos a : Nat) :
    Outcome (List (List Char)) :=
  match inds[bb]? with
  | none => Outcome.undef
  | some y =>
    (memcpy_from y rpos a).bind fun tmp =>
      match inds[aa]? with
      | none => Outcome.undef
      | some x =>
        (memcpy_from x rpos a).bind fun xs =>
          (memcpy_at y rpos xs).bind fun y2 =>
            let inds2 := inds.set bb y2
            match inds2[aa]? with
            | none => Outcome.undef
            | some x2 =>
              (memcpy_at x2 rpos tmp).bind fun x3 =>
                Outcome.ok (inds2.set aa x3)

/-- The recombination loop `for (j = 0; j < i; j++)` of gep.c lines 206-234; one unit of
    fuel per iteration. -/
def recombination_loop (p : gep_population_t) : Nat → Nat → Int → List Nat →
    List (List Char) → List Nat → Outcome (List (List Char) × List Nat)
  | fuel, j, i, idx, inds, draws =>
    if (j : Int) < i then
      match fuel with
      | 0 => Outcome.timeout
      | fuel + 1 =>
        match draws with
        | [] => Outcome.timeout
        | k1 :: ds =>
          if unit_draw k1 < p.p_x1 then
            match ds with
            | [] => Outcome.timeout
            | k2 :: ds2 =>
              let a := to_int ((i : ℚ) * unit_draw k2)
              (draw_other i a ds2).bind fun r =>
                let b := r.1
                (read_idx idx a).bind fun aa =>
                (read_idx idx b).bind fun bb =>
                (read_idx idx (i - 1)).bind fun v1 =>
                (write_idx idx a v1).bind fun idx1 =>
                (read_idx idx1 (i - 2)).bind fun v2 =>
                (write_idx idx1 b v2).bind fun idx2 =>
                  match r.2 with
                  | [] => Outcome.timeout
                  | k4 :: ds4 =>
                    let rpos := to_int (unit_draw k4 * (p.genome.individual_length : ℚ))
                    let a2 : Int := (p.genome.individual_length : Int) - rpos
                    if rpos < 0 ∨ a2 < 0 then Outcome.undef
                    else
                      (swap_tails inds aa bb rpos.toNat a2.toNat).bind fun inds2 =>
                        recombination_loop p fuel (j + 1) (i - 2) idx2 inds2 ds4
          else recombination_loop p fuel (j + 1) i idx inds ds
    else Outcome.ok (inds, draws)

/-- The function `gep_next_generation(p)` of gep.c (lines 150-239), run on the draws of
    `rand()`; returns the population and the draws left over. -/
def gep_next_generation (p : gep_population_t) (draws : List Nat) :
    Outcome (gep_population_t × List Nat) :=
  (mutation_loop p p.num_individuals 0 p.individuals draws).bind fun r =>
    (recombination_loop p p.num_individuals 0 (p.num_individuals : Int)
        (List.range p.num_individuals) r.1 r.2).bind fun r2 =>
      Outcome.ok ({ p with individuals := r2.1 }, r2.2)

/-- Every position from `head_length` on holds a symbol of `terminals`. -/
def tail_closed (g : gep_genome_t) (ind : List Char) : Prop :=
  ∀ i, g.head_length ≤ i → ∀ c, ind[i]? = some c → c ∈ g.terminals

/-- The genome of driver.c (line 67): `gep_create_genome(1, terminals, 4, functions, 150, 2)`
    with `terminals = {'a'}` and `functions = {'*','-','+','/'}`. -/
def driver_genome : gep_genome_t :=
  { terminals := ['a'], functions := ['*', '-', '+', '/'],
    num_terminals := 1, num_functions := 4, head_length := 150, max_arity := 2,
    individual_length := 301, genes_per_chromosome := 0 }

/-- A genome with two terminals: `gep_create_genome(2, "ab", 4, "*-+/", 2, 2)`. -/
def two_terminal_genome : gep_genome_t :=
  { terminals := ['a', 'b'], functions := ['*', '-', '+', '/'],
    num_terminals := 2, num_functions := 4, head_length := 2, max_arity := 2,
    individual_length := 5, genes_per_chromosome := 0 }

/-- A genome with the alphabet of the driver and head length 2:
    `gep_create_genome(1, "a", 4, "*-+/", 2, 2)`. -/
def short_genome : gep_genome_t :=
  { terminals := ['a'], functions := ['*', '-', '+', '/'],
    num_terminals := 1, num_functions := 4, head_length := 2, max_arity := 2,
    individual_length := 5, genes_per_chromosome := 0 }

/-- A population of two individuals over a genome of head length 2 and length 5, both with
    a tail of terminals; mutation rate 1/2, recombination rate 3/10. -/
def small_population (g : gep_genome_t) : gep_population_t :=
  { genome := g, p_x1 := 3 / 10, p_x2 := 0, p_m := 1 / 2, num_individuals := 2,
    individuals := [['+', 'a', 'a', 'a', 'a'], ['*', 'a', 'a', 'a', 'a']],
    selectionbuffer := [['+', 'a', 'a', 'a', 'a'], ['*', 'a', 'a', 'a', 'a']],
    fitnesses := [0, 0], max_fitness := none }

/-! ### The pairing of the recombination loop, step by step -/

/-- The statements `aa = idx[a]; bb = idx[b]; idx[a] = idx[i-1]; idx[b] = idx[i-2];` of
    gep.c lines 217-220: the pair picked and the index array afterwards. -/
def remove_pair (idx : List Nat) (i a b : Int) : Outcome (Nat × Nat × List Nat) :=
  (read_idx idx a).bind fun aa =>
  (read_idx idx b).bind fun bb =>
  (read_idx idx (i - 1)).bind fun v1 =>
  (write_idx idx a v1).bind fun idx1 =>
  (read_idx idx1 (i - 2)).bind fun v2 =>
  (write_idx idx1 b v2).bind fun idx2 =>
    Outcome.ok (aa, bb, idx2)

/-- The variables of the recombination loop of `gep_next_generation`, with the list of the
    pairs `(aa, bb)` recombined so far and the pool sizes `i` at which they were drawn. -/
structure recomb_state where
  j : Nat
  i : Int
  idx : List Nat
  inds : List (List Char)
  draws : List Nat
  pairs : List (Nat × Nat)
  sizes : List Int
  deriving DecidableEq, Repr

/-- The recombination loop `for (j = 0; j < i; j++)` of gep.c lines 206-234 on all of its
    variables; the same loop as `recombination_loop`, with the pairs recorded. -/
def recombination_run (p : gep_population_t) : Nat → recomb_state → Outcome recomb_state
  | fuel, s =>
    if (s.j : Int) < s.i then
      match fuel with
      | 0 => Outcome.timeout
      | fuel + 1 =>
        match s.draws with
        | [] => Outcome.timeout
        | k1 :: ds =>
          if unit_draw k1 < p.p_x1 then
            match ds with
            | [] => Outcome.timeout
            | k2 :: ds2 =>
              let a := to_int ((s.i : ℚ) * unit_draw k2)
              (draw_other s.i a ds2).bind fun r =>
                (remove_pair s.idx s.i a r.1).bind fun rp =>
                  match r.2 with
                  | [] => Outcome.timeout
                  | k4 :: ds4 =>
                    let rpos := to_int (unit_draw k4 * (p.genome.individual_length : ℚ))
                    let a2 : Int := (p.genome.individual_length : Int) - rpos
                    if rpos < 0 ∨ a2 < 0 then Outcome.undef
                    else
                      (swap_tails s.inds rp.1 rp.2.1 rpos.toNat a2.toNat).bind fun inds2 =>
                        recombination_run p fuel
                          { j := s.j + 1, i := s.i - 2, idx := rp.2.2, inds := inds2,
                            draws := ds4, pairs := s.pairs ++ [(rp.1, rp.2.1)],
                            sizes := s.sizes ++ [s.i] }
          else recombination_run p fuel { s with j := s.j + 1, draws := ds }
    else Outcome.ok s

/-- The state in which `gep_next_generation` enters its recombination loop (gep.c lines
    202-206) on a population of `n` individuals. -/
def recomb_start (n : Nat) (inds : List (List Char)) (draws : List Nat) : recomb_state :=
  { j := 0, i := (n : Int), idx := List.range n, inds := inds, draws := draws,
    pairs := [], sizes := [] }

/-! ## driver.c : ranking and selection -/

/-- The struct `flist_t` of driver.c. -/
structure flist_t where
  fv : ℚ
  idx : Int
  deriving DecidableEq, Repr

/-- The function `flcompare` of driver.c (lines 37-43), the comparison handed to `qsort`. -/
def flcompare (a b : flist_t) : Int :=
  if a.fv > b.fv then -1
  else if a.fv = b.fv then 0
  else 1

/-- The constant `POPSIZE` of driver.c. -/
def POPSIZE : Nat := 200

/-- The expression `(int)((double)POPSIZE * 0.5)` of driver.c line 58, for a population
    size. -/
def cutoff_of (popsize : Nat) : Int :=
  to_int ((popsize : ℚ) * (1 / 2))

/-- The call `memcpy(pop->selectionbuffer[i], pop->individuals[fl[j].idx], L)` of driver.c
    (lines 96-98 and 102-104) on the selection buffer `sel`. -/
def select_copy (p : gep_population_t) (fl : List flist_t) (sel : List (List Char))
    (i : Nat) (j : Int) : Outcome (List (List Char)) :=
  if j < 0 then Outcome.undef
  else
    match fl[j.toNat]? with
    | none => Outcome.undef
    | some e =>
      if e.idx < 0 then Outcome.undef
      else
        match p.individuals[e.idx.toNat]? with
        | none => Outcome.undef
        | some src =>
          (memcpy_from src 0 p.genome.individual_length).bind fun chars =>
            match sel[i]? with
            | none => Outcome.undef
            | some dst =>
              (memcpy_at dst 0 chars).bind fun dst2 => Outcome.ok (sel.set i dst2)

/-- The rank `j = (int)(((double)rand() / (double)RAND_MAX) * (double)cutoff)` of driver.c
    line 101 for the draw `k`. -/
def select_rank (cutoff : Int) (k : Nat) : Int :=
  to_int (unit_draw k * (cutoff : ℚ))

/-- The loop `for (i = 1; i < POPSIZE; i++)` of driver.c lines 100-105, from slot `i` on,
    `todo` iterations. -/
def selection_loop (p : gep_population_t) (fl : List flist_t) (cutoff : Int) :
    Nat → Nat → List (List Char) → List Nat → Outcome (List (List Char) × List Nat)
  | 0, _, sel, draws => Outcome.ok (sel, draws)
  | todo + 1, i, sel, draws =>
    match draws with
    | [] => Outcome.timeout
    | k :: ds =>
      (select_copy p fl sel i (select_rank cutoff k)).bind fun sel2 =>
        selection_loop p fl cutoff todo (i + 1) sel2 ds

/-- Lines 95-109 of driver.c for a population size: the best individual goes to slot 0 of
    the selection buffer, the other slots are drawn, the two buffers are swapped.  `fl` is
    the array of (fitness, index) entries after `qsort`. -/
def driver_select (popsize : Nat) (p : gep_population_t) (fl : List flist_t)
    (draws : List Nat) : Outcome (gep_population_t × List Nat) :=
  (select_copy p fl p.selectionbuffer 0 0).bind fun sel0 =>
    (selection_loop p fl (cutoff_of popsize) (popsize - 1) 1 sel0 draws).bind fun r =>
      Outcome.ok ({ p with individuals := r.1, selectionbuffer := p.individuals }, r.2)

/-- Lines 95-125 of driver.c: selection, swap, then `gep_next_generation`. -/
def driver_generation (popsize : Nat) (p : gep_population_t) (fl : List flist_t)
    (draws : List Nat) : Outcome (gep_population_t × List Nat) :=
  (driver_select popsize p fl draws).bind fun r => gep_next_generation r.1 r.2

/-- The entries `fl[i] = (fitness of individual i, i)` of driver.c lines 85-86, before
    `qsort`, for a fitness function. -/
def score (fit : List Char → ℚ) (inds : List (List Char)) : List flist_t :=
  (List.range inds.length).map fun i => { fv := fit (inds.getD i []), idx := (i : Int) }

/-- What `qsort` with `flcompare` guarantees for its result `fl`: a rearrangement of the
    entries in which no entry is followed by one that compares before it. -/
def ranking (fit : List Char → ℚ) (inds : List (List Char)) (fl : List flist_t) : Prop :=
  fl.Perm (score fit inds) ∧ fl.Pairwise (fun a b => flcompare a b ≤ 0)

/-- A population of four individuals over a genome of head length 2 and length 5, all with
    a tail of terminals; mutation rate 1/2, recombination rate 3/10. -/
def four_population : gep_population_t :=
  { genome := short_genome, p_x1 := 3 / 10, p_x2 := 0, p_m := 1 / 2, num_individuals := 4,
    individuals := [['+', '+', 'a', 'a', 'a'], ['*', '*', 'a', 'a', 'a'],
                    ['-', '-', 'a', 'a', 'a'], ['/', '/', 'a', 'a', 'a']],
    selectionbuffer := [['+', '+', 'a', 'a', 'a'], ['*', '*', 'a', 'a', 'a'],
                        ['-', '-', 'a', 'a', 'a'], ['/', '/', 'a', 'a', 'a']],
    fitnesses := [0, 0, 0, 0], max_fitness := none }

/-- The population of one individual that `gep_create_population(genome, 1, 0.3, 0, 0.5, mf)`
    returns for the genome of head length 2 on the draws 500000000, 500000000, 0, 0, 0. -/
def single_population : gep_population_t :=
  { genome := short_genome, p_x1 := 3 / 10, p_x2 := 0, p_m := 1 / 2, num_individuals := 1,
    individuals := [['*', '*', 'a', 'a', 'a']],
    selectionbuffer := [List.replicate 5 (Char.ofNat 0)],
    fitnesses := [0], max_fitness := none }

/-- The population of the driver (`POPSIZE` individuals over the genome of the driver, rates
    0.34, 0.4, 0.3) in which every chromosome is all `'a'`: what `gep_create_population`
    returns when every draw is 0. -/
def driver_population : gep_population_t :=
  { genome := driver_genome, p_x1 := 34 / 100, p_x2 := 4 / 10, p_m := 3 / 10,
    num_individuals := POPSIZE,
    individuals := List.replicate POPSIZE (List.replicate 301 'a'),
    selectionbuffer := List.replicate POPSIZE (List.replicate 301 (Char.ofNat 0)),
    fitnesses := List.replicate POPSIZE 0, max_fitness := none }

/-- A fitness function: 0 for a chromosome that starts with the terminal `'a'` (it decodes
    to the input itself), -1 for every other chromosome. -/
def identity_fitness (c : List Char) : ℚ :=
  if c.head? = some 'a' then 0 else -1

/-- The population of the driver in which the individuals 0 to 99 are all `'a'` and the
    individuals 100 to 199 start with the function `'*'`. -/
def split_population : gep_population_t :=
  { driver_population with
    individuals := List.replicate 100 (List.replicate 301 'a') ++
      List.replicate 100 ('*' :: List.replicate 300 'a') }

/-- The fitness of the individual in slot `i` after a run. -/
def slot_fitness (fit : List Char → ℚ) (i : Nat)
    (o : Outcome (gep_population_t × List Nat)) : Outcome ℚ :=
  o.bind fun r =>
    match r.1.individuals[i]? with
    | some c => Outcome.ok (fit c)
    | none => Outcome.undef

/-- The check that no entry is directly followed by one that `flcompare` orders before
    it. -/
def ranked_adjacent : List flist_t → Bool
  | [] => true
  | [_] => true
  | a :: b :: rest => decide (flcompare a b ≤ 0) && ranked_adjacent (b :: rest)

/-- The population of two individuals with mutation rate 0 and recombination rate 0. -/
def still_population : gep_population_t :=
  { small_population short_genome with p_m := 0, p_x1 := 0 }

end GEP

/-! # Theorems -/

namespace GEP

/-! ### Counting function symbols -/

theorem rank_zero (ind : List Char) : rank ind 0 = 0 := by
  simp [rank]

theorem rank_succ (ind : List Char) (k : Nat) (c : Char) (h : ind[k]? = some c) :
    rank ind (k + 1) = rank ind k + (if c = 'a' then 0 else 1) := by
  unfold rank
  rw [List.take_succ, h]
  by_cases hc : c = 'a' <;> simp [List.countP_append, hc]

theorem rank_mono (ind : List Char) {a b : Nat} (h : a ≤ b) : rank ind a ≤ rank ind b := by
  unfold rank
  have : ind.take a = (ind.take b).take a := by
    rw [List.take_take, Nat.min_eq_left h]
  rw [this]
  exact List.Sublist.countP_le _ (List.take_sublist _ _)

theorem rank_le (ind : List Char) (k : Nat) : rank ind k ≤ k := by
  unfold rank
  exact le_trans (List.countP_le_length _) (by simp)

theorem rank_lt_of_fn (ind : List Char) {i k : Nat} {c : Char} (hik : i < k)
    (hi : ind[i]? = some c) (hc : c ≠ 'a') : rank ind i < rank ind k := by
  have h1 := rank_succ ind i c hi
  have h2 := rank_mono ind (show i + 1 ≤ k from hik)
  simp [hc] at h1
  omega

theorem rank_inj (ind : List Char) {i k : Nat} {c d : Char}
    (hi : ind[i]? = some c) (hc : c ≠ 'a') (hk : ind[k]? = some d) (hd : d ≠ 'a')
    (h : rank ind i = rank ind k) : i = k := by
  rcases Nat.lt_trichotomy i k with hlt | heq | hgt
  · have := rank_lt_of_fn ind hlt hi hc; omega
  · exact heq
  · have := rank_lt_of_fn ind hgt hk hd; omega

theorem layout_length (ind : List Char) (n : Nat) : (layout ind n).length = n := by
  simp [layout]

theorem layout_get (ind : List Char) (n k : Nat) (h : k < n) :
    (layout ind n)[k]? = some (node_at ind n k) := by
  simp [layout, List.getElem?_map, List.getElem?_range h]

theorem layout_get_none (ind : List Char) (n k : Nat) (h : n ≤ k) :
    (layout ind n)[k]? = none := by
  simp [layout, h]

theorem node_at_fn (ind : List Char) (n k : Nat) (c : Char) (hk : ind[k]? = some c)
    (hc : c ≠ 'a') :
    node_at ind n k =
      { tag := c, ty := node_t.FUNCTION,
        left := if 2 * rank ind k + 1 < n then some (2 * rank ind k + 1) else none,
        right := if 2 * rank ind k + 2 < n then some (2 * rank ind k + 2) else none } := by
  simp [node_at, hk, hc]

theorem node_at_term (ind : List Char) (n k : Nat) (hk : ind[k]? = some 'a') :
    node_at ind n k =
      { tag := 'a', ty := node_t.TERMINAL, left := none, right := none } := by
  simp [node_at, hk]

theorem layout_succ (ind : List Char) (n p : Nat) (c cp : Char) (hn : 1 ≤ n)
    (hc : ind[n]? = some c) (hopen : n ≤ 2 * rank ind n) (hp : p < n)
    (hcp : ind[p]? = some cp) (hcpa : cp ≠ 'a') (hr : rank ind p = (n - 1) / 2) :
    layout ind (n + 1) =
      (layout ind n ++
          [et_node_t.mk c (if c = 'a' then node_t.TERMINAL else node_t.FUNCTION) none none]).set p
        (if (node_at ind n p).left = none then { node_at ind n p with left := some n }
         else { node_at ind n p with right := some n }) := by
  apply List.ext_getElem?
  intro i
  rw [List.getElem?_set]
  by_cases hip : p = i
  · subst hip
    rw [if_pos rfl, if_pos (by simp [layout_length]; omega), layout_get ind (n + 1) p (by omega)]
    rw [node_at_fn ind (n + 1) p cp hcp hcpa, node_at_fn ind n p cp hcp hcpa, hr]
    rcases Nat.even_or_odd n with he | ho
    · obtain ⟨m, hm⟩ := he
      have h1 : 2 * ((n - 1) / 2) + 1 < n := by omega
      have h2 : ¬ 2 * ((n - 1) / 2) + 2 < n := by omega
      have h3 : 2 * ((n - 1) / 2) + 1 < n + 1 := by omega
      have h4 : 2 * ((n - 1) / 2) + 2 < n + 1 := by omega
      have h5 : 2 * ((n - 1) / 2) + 2 = n := by omega
      simp [h1, h2, h3, h4, h5]
    · obtain ⟨m, hm⟩ := ho
      have h1 : ¬ 2 * ((n - 1) / 2) + 1 < n := by omega
      have h2 : ¬ 2 * ((n - 1) / 2) + 2 < n := by omega
      have h3 : 2 * ((n - 1) / 2) + 1 < n + 1 := by omega
      have h4 : ¬ 2 * ((n - 1) / 2) + 2 < n + 1 := by omega
      have h5 : 2 * ((n - 1) / 2) + 1 = n := by omega
      simp [h1, h2, h3, h4, h5]
  · rw [if_neg hip]
    rcases Nat.lt_trichotomy i n with hlt | heq | hgt
    · rw [layout_get ind (n + 1) i (by omega),
        List.getElem?_append_left (by simp [layout_length]; exact hlt),
        layout_get ind n i hlt]
      congr 1
      have hil : i < ind.length := by
        have : n < ind.length := by
          by_contra hcon
          rw [List.getElem?_eq_none (by omega)] at hc
          cases hc
        omega
      by_cases hci : ind[i] = 'a'
      · have hi : ind[i]? = some 'a' := by rw [List.getElem?_eq_getElem hil, hci]
        rw [node_at_term ind (n + 1) i hi, node_at_term ind n i hi]
      · have hi : ind[i]? = some ind[i] := List.getElem?_eq_getElem hil
        rw [node_at_fn ind (n + 1) i _ hi hci, node_at_fn ind n i _ hi hci]
        have hne : rank ind i ≠ (n - 1) / 2 := by
          intro hcon
          exact hip (rank_inj ind hcp hcpa hi hci (by omega))
        have e1 : (2 * rank ind i + 1 < n + 1) = (2 * rank ind i + 1 < n) := by
          apply propext; constructor <;> intro h <;> omega
        have e2 : (2 * rank ind i + 2 < n + 1) = (2 * rank ind i + 2 < n) := by
          apply propext; constructor <;> intro h <;> omega
        simp only [e1, e2]
    · subst heq
      rw [layout_get ind (i + 1) i (by omega),
        List.getElem?_append_right (by simp [layout_length])]
      simp only [layout_length, Nat.sub_self, List.getElem?_cons_zero]
      congr 1
      by_cases hca : c = 'a'
      · subst hca
        rw [node_at_term ind (i + 1) i hc]; simp
      · rw [node_at_fn ind (i + 1) i c hc hca]
        have h1 : ¬ 2 * rank ind i + 1 < i + 1 := by omega
        have h2 : ¬ 2 * rank ind i + 2 < i + 1 := by omega
        simp [h1, h2, hca]
    · rw [layout_get_none ind (n + 1) i (by omega),
        List.getElem?_append_right (by simp [layout_length]; omega)]
      simp only [layout_length]
      rw [List.getElem?_eq_none (by simp; omega)]

theorem rx_step_inv (ind : List Char) (st : rx_state) (p : Nat) (rest : List Nat) (c : Char)
    (hinv : rx_inv ind st) (hq : st.ll1_cur = p :: rest) (hcount : st.count > 0)
    (hc : ind[st.pos]? = some c) :
    (st.heap ++ [et_node_t.mk c (if c = 'a' then node_t.TERMINAL else node_t.FUNCTION)
        none none])[p]? = some (node_at ind st.pos p) ∧
    ((node_at ind st.pos p).left = none ↔ st.pos % 2 = 1) ∧
    rx_inv ind (rx_next st p rest c (node_at ind st.pos p)) := by
  obtain ⟨hpp, hple, hheap, hceq, hcnn, hql, hqg, hop⟩ := hinv
  have hposlt : st.pos < ind.length := by
    by_contra hcon
    rw [List.getElem?_eq_none (by omega)] at hc
    cases hc
  have h0 := hqg 0 p (by simp [hq])
  obtain ⟨hp, ⟨cp, hcp, hcpa⟩, hrp⟩ := h0
  simp only [Nat.add_zero] at hrp
  have hopen : st.pos ≤ 2 * rank ind st.pos := by omega
  have hlen : st.heap.length = st.pos := by rw [hheap, layout_length]
  have hnd : (st.heap ++ [et_node_t.mk c (if c = 'a' then node_t.TERMINAL else node_t.FUNCTION)
        none none])[p]? = some (node_at ind st.pos p) := by
    rw [List.getElem?_append_left (by omega), hheap, layout_get ind st.pos p hp]
  have hleft : (node_at ind st.pos p).left = none ↔ st.pos % 2 = 1 := by
    rw [node_at_fn ind st.pos p cp hcp hcpa, hrp]
    simp only
    constructor
    · intro h
      by_contra hcon
      have : 2 * ((st.pos - 1) / 2) + 1 < st.pos := by omega
      simp [this] at h
    · intro h
      have : ¬ 2 * ((st.pos - 1) / 2) + 1 < st.pos := by omega
      simp [this]
  have hrs := rank_succ ind st.pos c hc
  refine ⟨hnd, hleft, ?_⟩
  have hsucc := layout_succ ind st.pos p c cp hpp hc hopen hp hcp hcpa hrp
  constructor
  · show 1 ≤ st.pos + 1
    omega
  · show st.pos + 1 ≤ ind.length
    omega
  · show (if (node_at ind st.pos p).left = none then _ else _) = layout ind (st.pos + 1)
    rw [hsucc, hlen, hheap]
    by_cases hl : (node_at ind st.pos p).left = none
    · rw [if_pos hl, if_pos hl]
    · rw [if_neg hl, if_neg hl]
  · show (if c = 'a' then st.count - 1 else st.count + 1) =
      2 * (rank ind (st.pos + 1) : Int) - (((st.pos + 1 : Nat) : Int) - 1)
    rw [hrs]
    by_cases hca : c = 'a'
    · simp only [hca, if_true]; push_cast; omega
    · simp only [hca, if_false]; push_cast; omega
  · show 0 ≤ (if c = 'a' then st.count - 1 else st.count + 1)
    by_cases hca : c = 'a'
    · simp only [hca, if_true]; omega
    · simp only [hca, if_false]; omega
  · show ((if (node_at ind st.pos p).left = none then p :: rest else rest) ++
        (if (if c = 'a' then node_t.TERMINAL else node_t.FUNCTION) ≠ node_t.TERMINAL
          then st.ll2 ++ [st.heap.length] else st.ll2)).length + (st.pos + 1 - 1) / 2 =
      rank ind (st.pos + 1)
    rw [hrs]
    rw [hq] at hql
    simp only [List.length_append, List.length_cons] at hql
    by_cases hl : (node_at ind st.pos p).left = none
    · have hodd := hleft.mp hl
      by_cases hca : c = 'a'
      · simp [hl, hca]; omega
      · simp [hl, hca]; omega
    · have hev : ¬ st.pos % 2 = 1 := fun h => hl (hleft.mpr h)
      by_cases hca : c = 'a'
      · simp [hl, hca]; omega
      · simp [hl, hca]; omega
  · show ∀ i q, ((if (node_at ind st.pos p).left = none then p :: rest else rest) ++
        (if (if c = 'a' then node_t.TERMINAL else node_t.FUNCTION) ≠ node_t.TERMINAL
          then st.ll2 ++ [st.heap.length] else st.ll2))[i]? = some q →
      q < st.pos + 1 ∧ (∃ d, ind[q]? = some d ∧ d ≠ 'a') ∧
        rank ind q = (st.pos + 1 - 1) / 2 + i
    intro i q hiq
    rw [hq] at hqg hql
    simp only [List.length_append, List.length_cons] at hql
    -- the new queue is the old one, possibly without its head, possibly with `pos` appended
    have key : (∃ k, (p :: rest ++ st.ll2)[k]? = some q ∧
          (st.pos - 1) / 2 + k = (st.pos + 1 - 1) / 2 + i) ∨
        (q = st.pos ∧ c ≠ 'a' ∧ rank ind st.pos = (st.pos + 1 - 1) / 2 + i) := by
      by_cases hl : (node_at ind st.pos p).left = none
      · have hodd := hleft.mp hl
        by_cases hca : c = 'a'
        · simp only [hl, hca, if_true] at hiq
          simp only [ne_eq, not_true_eq_false, if_false] at hiq
          left; exact ⟨i, hiq, by omega⟩
        · simp only [hl, hca, if_true, if_false] at hiq
          simp only [ne_eq, reduceCtorEq, not_false_eq_true, if_true] at hiq
          rw [← List.append_assoc] at hiq
          by_cases hi : i < (p :: rest ++ st.ll2).length
          · rw [List.getElem?_append_left hi] at hiq
            left; exact ⟨i, hiq, by omega⟩
          · rw [List.getElem?_append_right (by omega)] at hiq
            have hi0 : i - (p :: rest ++ st.ll2).length = 0 := by
              by_contra hne
              rw [List.getElem?_eq_none (by simp only [List.length_cons, List.length_nil]; omega)] at hiq
              cases hiq
            rw [hi0] at hiq
            simp only [List.getElem?_cons_zero, Option.some.injEq] at hiq
            right
            simp only [List.length_append, List.length_cons] at hi hi0
            refine ⟨by omega, hca, by omega⟩
      · have hev : ¬ st.pos % 2 = 1 := fun h => hl (hleft.mpr h)
        by_cases hca : c = 'a'
        · simp only [hl, hca, if_true, if_false] at hiq
          simp only [ne_eq, not_true_eq_false, if_false] at hiq
          left; exact ⟨i + 1, by simpa using hiq, by omega⟩
        · simp only [hl, hca, if_false] at hiq
          simp only [ne_eq, reduceCtorEq, not_false_eq_true, if_true] at hiq
          rw [← List.append_assoc] at hiq
          by_cases hi : i < (rest ++ st.ll2).length
          · rw [List.getElem?_append_left hi] at hiq
            left; exact ⟨i + 1, by simpa using hiq, by omega⟩
          · rw [List.getElem?_append_right (by omega)] at hiq
            have hi0 : i - (rest ++ st.ll2).length = 0 := by
              by_contra hne
              rw [List.getElem?_eq_none (by simp only [List.length_cons, List.length_nil]; omega)] at hiq
              cases hiq
            rw [hi0] at hiq
            simp only [List.getElem?_cons_zero, Option.some.injEq] at hiq
            right
            simp only [List.length_append] at hi hi0
            refine ⟨by omega, hca, by omega⟩
    rcases key with ⟨k, hk, hkeq⟩ | ⟨hqe, hca, hre⟩
    · obtain ⟨h1, h2, h3⟩ := hqg k q hk
      exact ⟨by omega, h2, by omega⟩
    · subst hqe
      exact ⟨by omega, ⟨c, hc, hca⟩, hre⟩
  · show slots_open ind (st.pos + 1 - 1)
    intro j hj1 hj2
    by_cases hj : j ≤ st.pos - 1
    · exact hop j hj1 hj
    · have : j = st.pos := by omega
      subst this
      exact hopen

theorem rx_inv_cur_nil (ind : List Char) (st : rx_state) (hinv : rx_inv ind st)
    (hcount : ¬ st.count > 0) : st.ll1_cur = [] ∧ st.ll2 = [] := by
  have h1 := hinv.count_eq
  have h2 := hinv.count_nonneg
  have h3 := hinv.queue_len
  have h4 := hinv.pos_pos
  simp only [List.length_append] at h3
  have : st.ll1_cur.length = 0 ∧ st.ll2.length = 0 := by omega
  exact ⟨List.length_eq_zero.mp this.1, List.length_eq_zero.mp this.2⟩

theorem rx_inner_spec (ind : List Char) : ∀ (fuel : Nat) (st : rx_state), rx_inv ind st →
    2 * st.ll1_cur.length ≤ fuel + (if st.pos % 2 = 0 then 1 else 0) →
    (rx_inner ind fuel st = Outcome.undef ∧ slots_open ind ind.length) ∨
    ∃ st1, rx_inner ind fuel st = Outcome.ok st1 ∧ rx_inv ind st1 ∧ st1.ll1_cur = [] ∧
      st.pos ≤ st1.pos ∧ (st.ll1_cur ≠ [] → st.pos < st1.pos) := by
  intro fuel
  induction fuel with
  | zero =>
    intro st hinv hfuel
    right
    by_cases hcount : st.count > 0
    · cases hq : st.ll1_cur with
      | nil =>
        refine ⟨st, ?_, hinv, hq, le_refl _, fun h => absurd rfl h⟩
        unfold rx_inner
        simp [hq]
      | cons p rest =>
        exfalso
        rw [hq] at hfuel
        simp only [List.length_cons] at hfuel
        split at hfuel <;> omega
    · have hnil := (rx_inv_cur_nil ind st hinv hcount).1
      refine ⟨st, ?_, hinv, hnil, le_refl _, fun h => absurd hnil h⟩
      unfold rx_inner
      simp [hnil]
  | succ f ih =>
    intro st hinv hfuel
    by_cases hcount : st.count > 0
    · cases hq : st.ll1_cur with
      | nil =>
        right
        refine ⟨st, ?_, hinv, hq, le_refl _, fun h => absurd rfl h⟩
        unfold rx_inner
        simp [hq]
      | cons p rest =>
        cases hc : ind[st.pos]? with
        | none =>
          left
          constructor
          · unfold rx_inner
            simp [hq, hcount, hc]
          · intro j hj1 hj2
            have hple := hinv.pos_le
            have hpos : ind.length ≤ st.pos := by
              by_contra hcon
              rw [List.getElem?_eq_getElem (by omega)] at hc
              cases hc
            by_cases hj : j ≤ st.pos - 1
            · exact hinv.opened j hj1 hj
            · have hjp : j = st.pos := by omega
              subst hjp
              have := hinv.count_eq
              omega
        | some c =>
          obtain ⟨hnd, hleft, hinv2⟩ := rx_step_inv ind st p rest c hinv hq hcount hc
          have hstep : rx_inner ind (f + 1) st =
              rx_inner ind f (rx_next st p rest c (node_at ind st.pos p)) := by
            conv => lhs; unfold rx_inner
            simp only [hq, hcount, if_true, hc, new_etnode, hnd]
            rfl
          rw [hstep]
          rw [hq] at hfuel
          simp only [List.length_cons] at hfuel
          have hfuel2 : 2 * (rx_next st p rest c (node_at ind st.pos p)).ll1_cur.length ≤
              f + (if (rx_next st p rest c (node_at ind st.pos p)).pos % 2 = 0 then 1 else 0) := by
            show 2 * (if (node_at ind st.pos p).left = none then p :: rest
              else rest).length ≤ f + (if (st.pos + 1) % 2 = 0 then 1 else 0)
            by_cases hl : (node_at ind st.pos p).left = none
            · have hodd := hleft.mp hl
              have : (st.pos + 1) % 2 = 0 := by omega
              have h0 : ¬ st.pos % 2 = 0 := by omega
              simp only [hl, if_true, this, List.length_cons]
              simp only [h0, if_false] at hfuel
              omega
            · have hev : ¬ st.pos % 2 = 1 := fun h => hl (hleft.mpr h)
              have : ¬ (st.pos + 1) % 2 = 0 := by omega
              have h0 : st.pos % 2 = 0 := by omega
              simp only [hl, if_false, this]
              simp only [h0, if_true] at hfuel
              omega
          rcases ih _ hinv2 hfuel2 with ⟨hu, hs⟩ | ⟨st1, hok, hinv1, hnil, hle, _⟩
          · left; exact ⟨hu, hs⟩
          · right
            refine ⟨st1, hok, hinv1, hnil, ?_, fun _ => ?_⟩
            · have : st.pos + 1 ≤ st1.pos := hle
              omega
            · have : st.pos + 1 ≤ st1.pos := hle
              omega
    · have hnil := (rx_inv_cur_nil ind st hinv hcount).1
      right
      refine ⟨st, ?_, hinv, hnil, le_refl _, fun h => absurd hnil h⟩
      unfold rx_inner
      simp [hnil]

theorem rx_inv_swap (ind : List Char) (st : rx_state) (hinv : rx_inv ind st)
    (hnil : st.ll1_cur = []) : rx_inv ind { st with ll1_cur := st.ll2, ll2 := [] } := by
  obtain ⟨h1, h2, h3, h4, h5, h6, h7, h8⟩ := hinv
  rw [hnil] at h6 h7
  simp only [List.nil_append] at h6 h7
  exact ⟨h1, h2, h3, h4, h5, by simpa using h6, by simpa using h7, h8⟩

theorem rx_outer_spec (ind : List Char) (len : Int) : ∀ (fuel : Nat) (st : rx_state),
    rx_inv ind st → st.ll2 = [] → len - (st.pos : Int) ≤ (fuel : Int) →
    (rx_outer ind len fuel st = Outcome.undef ∧ slots_open ind ind.length) ∨
    ∃ st1, rx_outer ind len fuel st = Outcome.ok st1 ∧ rx_inv ind st1 ∧
      ¬ (st1.count > 0 ∧ (st1.pos : Int) < len) := by
  intro fuel
  induction fuel with
  | zero =>
    intro st hinv _ hfuel
    right
    have hc : ¬ (st.count > 0 ∧ (st.pos : Int) < len) := by
      intro h
      have := h.2
      simp only [Nat.cast_zero] at hfuel
      omega
    refine ⟨st, ?_, hinv, hc⟩
    unfold rx_outer
    simp only [hc, if_false]
  | succ f ih =>
    intro st hinv hll2 hfuel
    by_cases hc : st.count > 0 ∧ (st.pos : Int) < len
    · have hne : st.ll1_cur ≠ [] := by
        intro hnil
        have h1 := hinv.count_eq
        have h3 := hinv.queue_len
        have h4 := hinv.pos_pos
        rw [hnil, hll2] at h3
        simp only [List.append_nil, List.length_nil] at h3
        have := hc.1
        omega
      rcases rx_inner_spec ind (2 * st.ll1_cur.length) st hinv (by omega) with
        ⟨hu, hs⟩ | ⟨st1, hok, hinv1, hnil, _, hlt⟩
      · left
        refine ⟨?_, hs⟩
        unfold rx_outer
        simp only [hc, and_self, if_true, hu]
      · have hstep : rx_outer ind len (f + 1) st =
            rx_outer ind len f { st1 with ll1_cur := st1.ll2, ll2 := [] } := by
          conv => lhs; unfold rx_outer
          simp only [hc, and_self, if_true, hok]
        rw [hstep]
        have hlt2 := hlt hne
        apply ih _ (rx_inv_swap ind st1 hinv1 hnil) rfl
        show len - (st1.pos : Int) ≤ (f : Int)
        push_cast at hfuel
        omega
    · right
      refine ⟨st, ?_, hinv, hc⟩
      unfold rx_outer
      simp only [hc, if_false]

theorem layout_one (ind : List Char) (c0 : Char) (h0 : ind[0]? = some c0) (hc : c0 ≠ 'a') :
    layout ind 1 = [et_node_t.mk c0 node_t.FUNCTION none none] := by
  have : List.range 1 = [0] := rfl
  simp [layout, this, node_at_fn ind 1 0 c0 h0 hc, rank_zero]

theorem rx_inv_init (ind : List Char) (c0 : Char) (h0 : ind[0]? = some c0) (hc : c0 ≠ 'a') :
    rx_inv ind { heap := [et_node_t.mk c0 node_t.FUNCTION none none], ll1_cur := [0],
                 ll2 := [], count := 2, pos := 1 } := by
  have hlen : 0 < ind.length := by
    by_contra hcon
    rw [List.getElem?_eq_none (by omega)] at h0
    cases h0
  have hr1 : rank ind 1 = 1 := by
    have := rank_succ ind 0 c0 h0
    simp [hc, rank_zero] at this
    exact this
  constructor
  · show 1 ≤ 1
    omega
  · show 1 ≤ ind.length
    omega
  · show [et_node_t.mk c0 node_t.FUNCTION none none] = layout ind 1
    rw [layout_one ind c0 h0 hc]
  · show (2 : Int) = 2 * (rank ind 1 : Int) - (((1 : Nat) : Int) - 1)
    rw [hr1]; norm_num
  · show (0 : Int) ≤ 2
    omega
  · show ([0] ++ ([] : List Nat)).length + (1 - 1) / 2 = rank ind 1
    rw [hr1]; rfl
  · intro i q hiq
    have hiq2 : ([0] : List Nat)[i]? = some q := by simpa using hiq
    cases i with
    | zero =>
      simp only [List.getElem?_cons_zero, Option.some.injEq] at hiq2
      subst hiq2
      exact ⟨by show 0 < 1; omega, ⟨c0, h0, hc⟩, by simp [rank_zero]⟩
    | succ k =>
      simp at hiq2
  · intro j hj1 hj2
    have : j ≤ 0 := hj2
    omega

/-- Closed form of the decoder: either the run is undefined because a symbol outside of
    the buffer is read, or the first symbol is `'a'` and one terminal cell is returned, or
    `n` symbols are consumed, the heap is their level-order layout, and the result is `NULL`
    exactly when `n = len` with slots still open. -/
theorem r_express_spec (ind : List Char) (len : Int) :
    (r_express ind len = Outcome.undef ∧ (ind = [] ∨ slots_open ind ind.length)) ∨
    (ind[0]? = some 'a' ∧ r_express ind len =
      Outcome.ok { root := some 0, heap := [et_node_t.mk 'a' node_t.TERMINAL none none] }) ∨
    (∃ n, 1 ≤ n ∧ n ≤ ind.length ∧ ind[0]? ≠ some 'a' ∧ slots_open ind (n - 1) ∧
      (n - 1 : Int) ≤ 2 * (rank ind n : Int) ∧
      ¬ ((n - 1 : Int) < 2 * (rank ind n : Int) ∧ (n : Int) < len) ∧
      r_express ind len = Outcome.ok
        { root := if (n : Int) = len ∧ (n - 1 : Int) < 2 * (rank ind n : Int) then none
                  else some 0,
          heap := layout ind n }) := by
  cases h0 : ind[0]? with
  | none =>
    left
    constructor
    · unfold r_express; simp only [h0]
    · left
      cases ind with
      | nil => rfl
      | cons a l => simp at h0
  | some c0 =>
    by_cases hc : c0 = 'a'
    · right; left
      subst hc
      refine ⟨rfl, ?_⟩
      unfold r_express
      simp only [h0, if_true, new_etnode]
      rfl
    · rcases rx_outer_spec ind len len.toNat
          { heap := [et_node_t.mk c0 node_t.FUNCTION none none], ll1_cur := [0],
            ll2 := [], count := 2, pos := 1 } (rx_inv_init ind c0 h0 hc) rfl
          (by show len - ((1 : Nat) : Int) ≤ (len.toNat : Int); omega) with
        ⟨hu, hs⟩ | ⟨st1, hok, hinv1, hstop⟩
      · left
        refine ⟨?_, Or.inr hs⟩
        unfold r_express
        simp only [h0, hc, if_false, new_etnode, List.nil_append, List.length_nil, hu]
      · right; right
        have hce := hinv1.count_eq
        have hcn := hinv1.count_nonneg
        refine ⟨st1.pos, hinv1.pos_pos, hinv1.pos_le, ?_, hinv1.opened, by omega, ?_, ?_⟩
        · simp [hc]
        · intro h
          apply hstop
          exact ⟨by omega, h.2⟩
        · unfold r_express
          simp only [h0, hc, if_false, new_etnode, List.nil_append, List.length_nil, hok]
          rw [hinv1.heap_eq]
          by_cases hnull : (st1.pos : Int) = len ∧ st1.count > 0
          · have h2 : (st1.pos : Int) = len ∧ (st1.pos - 1 : Int) < 2 * (rank ind st1.pos : Int) :=
              ⟨hnull.1, by have := hnull.2; omega⟩
            rw [if_pos hnull, if_pos h2]
          · have h2 : ¬ ((st1.pos : Int) = len ∧
                (st1.pos - 1 : Int) < 2 * (rank ind st1.pos : Int)) := by
              intro h
              exact hnull ⟨h.1, by have := h.2; omega⟩
            rw [if_neg hnull, if_neg h2]

/-! ### Generic facts on trees -/

theorem tree_of_height (h : Heap) : ∀ (f : Nat) (p : Option Nat),
    (tree_of h f p).height ≤ f := by
  intro f
  induction f with
  | zero => intro p; simp [tree_of, ETree.height]
  | succ f ih =>
    intro p
    cases p with
    | none => simp [tree_of, ETree.height]
    | some i =>
      unfold tree_of
      cases hi : h[i]? with
      | none => simp [ETree.height]
      | some n =>
        simp only [ETree.height]
        have h1 := ih n.left
        have h2 := ih n.right
        omega

theorem level_of_height_le : ∀ (t : ETree) (d : Nat), t.height ≤ d → t.level d = [] := by
  intro t
  induction t with
  | null => intro d _; cases d <;> rfl
  | node c ty l r ihl ihr =>
    intro d hd
    simp only [ETree.height] at hd
    cases d with
    | zero => omega
    | succ d =>
      simp only [ETree.level]
      rw [ihl d (by omega), ihr d (by omega)]
      rfl

theorem bfs_eq_of_height_le (t : ETree) : ∀ (D : Nat), t.height ≤ D →
    (List.range D).flatMap (fun d => t.level d) = t.bfs := by
  intro D hD
  induction D, hD using Nat.le_induction with
  | base => rfl
  | succ D hD ih =>
    rw [List.range_succ, List.flatMap_append, ih]
    simp [level_of_height_le t D hD]

theorem level_sum_node (c : Char) (ty : node_t) (l r : ETree) : ∀ (D : Nat),
    ((List.range (D + 1)).flatMap (fun d => (ETree.node c ty l r).level d)).length =
      1 + ((List.range D).flatMap (fun d => l.level d)).length +
        ((List.range D).flatMap (fun d => r.level d)).length := by
  intro D
  induction D with
  | zero =>
    have : List.range 1 = [0] := rfl
    simp [this, ETree.level]
  | succ D ih =>
    rw [List.range_succ, List.flatMap_append, List.length_append, ih]
    rw [List.range_succ (n := D), List.flatMap_append, List.flatMap_append]
    simp [ETree.level]
    omega

theorem level_sum_eq_size : ∀ (t : ETree) (D : Nat), t.height ≤ D →
    ((List.range D).flatMap (fun d => t.level d)).length = t.size := by
  intro t
  induction t with
  | null =>
    intro D _
    have : (List.range D).flatMap (fun d => ETree.null.level d) = [] := by
      rw [List.flatMap_eq_nil_iff]
      intro x _
      cases x <;> rfl
    rw [this]; rfl
  | node c ty l r ihl ihr =>
    intro D hD
    simp only [ETree.height] at hD
    cases D with
    | zero => omega
    | succ D =>
      rw [level_sum_node, ihl D (by omega), ihr D (by omega)]
      simp [ETree.size]

theorem bfs_length (t : ETree) : t.bfs.length = t.size :=
  level_sum_eq_size t t.height (le_refl _)

/-! ### Slices -/

theorem slice_self (s : List Char) (a : Nat) : slice s a a = [] := by
  simp [slice]

theorem slice_append (s : List Char) {a b c : Nat} (hab : a ≤ b) (hbc : b ≤ c) :
    slice s a b ++ slice s b c = slice s a c := by
  unfold slice
  have h1 : c - a = (b - a) + (c - b) := by omega
  have h2 : s.drop b = (s.drop a).drop (b - a) := by
    rw [List.drop_drop]; congr 1; omega
  rw [h1, List.take_add, h2]

theorem slice_single (s : List Char) (k : Nat) (hk : k < s.length) :
    slice s k (k + 1) = [s[k]] := by
  unfold slice
  rw [List.drop_eq_getElem_cons hk]
  have : k + 1 - k = 1 := by omega
  rw [this]
  rfl

theorem slice_zero (s : List Char) (n : Nat) : slice s 0 n = s.take n := by
  simp [slice]

/-! ### Levels of the layout -/

theorem tree_of_none (h : Heap) (f : Nat) : tree_of h f none = ETree.null := by
  cases f <;> rfl

theorem tree_of_layout (ind : List Char) (n f k : Nat) (hk : k < n) :
    tree_of (layout ind n) (f + 1) (some k) =
      ETree.node (node_at ind n k).tag (node_at ind n k).ty
        (tree_of (layout ind n) f (node_at ind n k).left)
        (tree_of (layout ind n) f (node_at ind n k).right) := by
  rw [tree_of, layout_get ind n k hk]

theorem below_mono (ind : List Char) (n : Nat) : Monotone (below ind n) := by
  intro x y hxy
  have := rank_mono ind hxy
  simp only [below]
  omega

theorem below_le (ind : List Char) (n x : Nat) : below ind n x ≤ n := by
  simp only [below]; omega

theorem below_iter_le (ind : List Char) (n : Nat) : ∀ (d x : Nat), x ≤ n →
    (below ind n)^[d] x ≤ n := by
  intro d
  induction d with
  | zero => intro x hx; simpa using hx
  | succ d ih =>
    intro x _
    rw [Function.iterate_succ_apply]
    exact ih _ (below_le ind n x)

theorem level_layout (ind : List Char) (n : Nat) (hopen : slots_open ind (n - 1))
    (hn : n ≤ ind.length) : ∀ (d f k : Nat), k < n → n - k ≤ f →
    (tree_of (layout ind n) f (some k)).level d =
      slice ind ((below ind n)^[d] k) ((below ind n)^[d] (k + 1)) := by
  intro d
  induction d with
  | zero =>
    intro f k hk hf
    obtain ⟨f, rfl⟩ : ∃ g, f = g + 1 := ⟨f - 1, by omega⟩
    rw [tree_of_layout ind n f k hk]
    simp only [ETree.level, Function.iterate_zero, id_eq]
    rw [slice_single ind k (by omega)]
    have hi : ind[k]? = some ind[k] := List.getElem?_eq_getElem (by omega)
    by_cases hc : ind[k] = 'a'
    · rw [hc] at hi
      rw [node_at_term ind n k hi, hc]
    · rw [node_at_fn ind n k _ hi hc]
  | succ d ih =>
    intro f k hk hf
    obtain ⟨f, rfl⟩ : ∃ g, f = g + 1 := ⟨f - 1, by omega⟩
    rw [tree_of_layout ind n f k hk]
    simp only [ETree.level, Function.iterate_succ_apply]
    have hi : ind[k]? = some ind[k] := List.getElem?_eq_getElem (by omega)
    have hmono := (below_mono ind n).iterate d
    by_cases hc : ind[k] = 'a'
    · have hi2 := hi
      rw [hc] at hi2
      rw [node_at_term ind n k hi2]
      simp only [tree_of_none, ETree.level, List.append_nil]
      have hr := rank_succ ind k 'a' hi2
      simp only [if_true, Nat.add_zero] at hr
      have : below ind n (k + 1) = below ind n k := by simp only [below, hr]
      rw [this, slice_self]
    · rw [node_at_fn ind n k _ hi hc]
      simp only
      have hr := rank_succ ind k _ hi
      simp only [hc, if_false] at hr
      have hgt : k < 2 * rank ind k + 1 := by
        by_cases hk0 : k = 0
        · omega
        · have := hopen k (by omega) (by omega)
          omega
      by_cases h2 : 2 * rank ind k + 2 < n
      · have h1 : 2 * rank ind k + 1 < n := by omega
        simp only [h1, h2, if_true]
        rw [ih f (2 * rank ind k + 1) h1 (by omega), ih f (2 * rank ind k + 2) h2 (by omega)]
        have e1 : below ind n k = 2 * rank ind k + 1 := by simp only [below]; omega
        have e2 : below ind n (k + 1) = 2 * rank ind k + 2 + 1 := by
          simp only [below, hr]; omega
        rw [e1, e2]
        exact slice_append ind (hmono (by omega)) (hmono (by omega))
      · by_cases h1 : 2 * rank ind k + 1 < n
        · simp only [h1, h2, if_true, if_false, tree_of_none, ETree.level, List.append_nil]
          rw [ih f (2 * rank ind k + 1) h1 (by omega)]
          have e1 : below ind n k = 2 * rank ind k + 1 := by simp only [below]; omega
          have e2 : below ind n (k + 1) = 2 * rank ind k + 1 + 1 := by
            simp only [below, hr]; omega
          rw [e1, e2]
        · simp only [h1, h2, if_false, tree_of_none, ETree.level, List.append_nil]
          have e1 : below ind n k = n := by simp only [below]; omega
          have e2 : below ind n (k + 1) = n := by simp only [below, hr]; omega
          rw [e1, e2, slice_self]

theorem below_ge (ind : List Char) (n : Nat) (hopen : slots_open ind (n - 1)) (x : Nat)
    (hx : x < n) : x + 1 ≤ below ind n x := by
  simp only [below]
  by_cases hx0 : x = 0
  · omega
  · have := hopen x (by omega) (by omega)
    omega

theorem below_iter_ge (ind : List Char) (n : Nat) (hopen : slots_open ind (n - 1)) :
    ∀ (d : Nat), min n d ≤ (below ind n)^[d] 0 := by
  intro d
  induction d with
  | zero => simp
  | succ d ih =>
    rw [Function.iterate_succ_apply']
    by_cases hlt : (below ind n)^[d] 0 < n
    · have := below_ge ind n hopen _ hlt
      omega
    · have h1 : (below ind n)^[d] 0 = n := by
        have := below_iter_le ind n d 0 (by omega)
        omega
      have h2 := below_mono ind n (show min n d ≤ (below ind n)^[d] 0 from ih)
      have h3 : n ≤ below ind n ((below ind n)^[d] 0) ∨ n = 0 := by
        by_cases hn0 : n = 0
        · right; exact hn0
        · left
          rw [h1]
          have hb := below_ge ind n hopen (n - 1) (by omega)
          have hm := below_mono ind n (show n - 1 ≤ n by omega)
          omega
      rcases h3 with h3 | h3
      · omega
      · omega

theorem level_telescope (ind : List Char) (n : Nat) (hopen : slots_open ind (n - 1))
    (hn1 : 1 ≤ n) : ∀ (D : Nat),
    (List.range D).flatMap
        (fun d => slice ind ((below ind n)^[d] 0) ((below ind n)^[d] (0 + 1))) =
      slice ind 0 ((below ind n)^[D] 0) := by
  have hb0 : below ind n 0 = 1 := by simp only [below, rank_zero]; omega
  intro D
  induction D with
  | zero => simp [slice_self]
  | succ D ih =>
    rw [List.range_succ, List.flatMap_append, ih]
    simp only [List.flatMap_cons, List.flatMap_nil, List.append_nil, Nat.zero_add]
    have e : (below ind n)^[D] 1 = (below ind n)^[D + 1] 0 := by
      rw [Function.iterate_succ_apply, hb0]
    rw [e]
    apply slice_append ind (Nat.zero_le _)
    rw [Function.iterate_succ_apply']
    by_cases hlt : (below ind n)^[D] 0 < n
    · have := below_ge ind n hopen _ hlt
      omega
    · have h1 : (below ind n)^[D] 0 = n := by
        have := below_iter_le ind n D 0 (by omega)
        omega
      rw [h1]
      have hb := below_ge ind n hopen (n - 1) (by omega)
      have hm := below_mono ind n (show n - 1 ≤ n by omega)
      omega

/-- Breadth-first order of the layout is the order of the chromosome. -/
theorem bfs_layout (ind : List Char) (n : Nat) (hopen : slots_open ind (n - 1))
    (hn1 : 1 ≤ n) (hn : n ≤ ind.length) :
    (tree_of (layout ind n) n (some 0)).bfs = ind.take n := by
  rw [← bfs_eq_of_height_le _ n (tree_of_height _ _ _)]
  have hlev : (fun d => (tree_of (layout ind n) n (some 0)).level d) =
      (fun d => slice ind ((below ind n)^[d] 0) ((below ind n)^[d] (0 + 1))) := by
    funext d
    exact level_layout ind n hopen hn d n 0 (by omega) (by omega)
  rw [hlev, level_telescope ind n hopen hn1 n, slice_zero]
  have h1 := below_iter_ge ind n hopen n
  have h2 := below_iter_le ind n n 0 (by omega)
  have : (below ind n)^[n] 0 = n := by omega
  rw [this]

/-- When no slot is open, every function node of the layout has both children. -/
theorem full_layout (ind : List Char) (n : Nat) (hopen : slots_open ind (n - 1))
    (hn : n ≤ ind.length) (hcl : n - 1 = 2 * rank ind n) : ∀ (f k : Nat), k < n → n - k ≤ f →
    (tree_of (layout ind n) f (some k)).functions_full := by
  intro f
  induction f with
  | zero => intro k hk hf; omega
  | succ f ih =>
    intro k hk hf
    rw [tree_of_layout ind n f k hk]
    have hi : ind[k]? = some ind[k] := List.getElem?_eq_getElem (by omega)
    by_cases hc : ind[k] = 'a'
    · have hi2 := hi
      rw [hc] at hi2
      rw [node_at_term ind n k hi2]
      simp [ETree.functions_full, tree_of_none]
    · rw [node_at_fn ind n k _ hi hc]
      have hlt := rank_lt_of_fn ind hk hi hc
      have hgt : k < 2 * rank ind k + 1 := by
        by_cases hk0 : k = 0
        · omega
        · have := hopen k (by omega) (by omega)
          omega
      have h1 : 2 * rank ind k + 1 < n := by omega
      have h2 : 2 * rank ind k + 2 < n := by omega
      simp only [h1, h2, if_true, ETree.functions_full]
      refine ⟨fun _ => ⟨?_, ?_⟩, ih _ h1 (by omega), ih _ h2 (by omega)⟩
      · obtain ⟨g, hg⟩ : ∃ g, f = g + 1 := ⟨f - 1, by omega⟩
        rw [hg, tree_of_layout ind n g _ h1]
        exact fun h => ETree.noConfusion h
      · obtain ⟨g, hg⟩ : ∃ g, f = g + 1 := ⟨f - 1, by omega⟩
        rw [hg, tree_of_layout ind n g _ h2]
        exact fun h => ETree.noConfusion h

/-! ### The decoder on chromosomes with a terminal tail -/

theorem rank_le_head (ind : List Char) (h : Nat)
    (htail : ∀ i, h ≤ i → i < ind.length → ind[i]? = some 'a') :
    ∀ k, rank ind k ≤ h := by
  intro k
  induction k with
  | zero => simp [rank_zero]
  | succ k ih =>
    by_cases hk : k < h
    · have := rank_le ind (k + 1)
      omega
    · by_cases hkl : k < ind.length
      · have := rank_succ ind k 'a' (htail k (by omega) hkl)
        simp only [if_true] at this
        omega
      · have e : rank ind (k + 1) = rank ind k := by
          unfold rank
          rw [List.take_of_length_le (by omega), List.take_of_length_le (by omega)]
        omega

theorem tree_single :
    (rx_result.mk (some 0) [et_node_t.mk 'a' node_t.TERMINAL none none]).tree =
      ETree.node 'a' node_t.TERMINAL ETree.null ETree.null := by
  rfl

theorem tree_layout_root (ind : List Char) (n : Nat) :
    (rx_result.mk (some 0) (layout ind n)).tree = tree_of (layout ind n) n (some 0) := by
  simp [rx_result.tree, layout_length]

/-! ## The claims on `r_express` -/

/-- C1. Closure of the encoding: for a head length `h ≥ 1` and a chromosome `ind` of length
    `L = 2h + 1` whose positions `≥ h` all hold `'a'`, `r_express(ind, L)` returns a tree
    and not `NULL`, every function node of the tree has a left and a right child, and the
    decoder reads only positions `< L`: the run on the buffer of exactly `L` characters is
    defined, and at most `L` cells (one per symbol read) are allocated. -/
theorem C1_decoder_closure (h : Nat) (ind : List Char) (hh : 1 ≤ h)
    (hlen : ind.length = 2 * h + 1)
    (htail : ∀ i, h ≤ i → i < ind.length → ind[i]? = some 'a') :
    ∃ r, r_express ind ((2 * h + 1 : Nat) : Int) = Outcome.ok r ∧ r.root ≠ none ∧
      r.tree ≠ ETree.null ∧ r.tree.functions_full ∧ r.heap.length ≤ 2 * h + 1 := by
  have hrk := rank_le_head ind h htail
  rcases r_express_spec ind ((2 * h + 1 : Nat) : Int) with
    ⟨_, hnil | hop⟩ | ⟨_, hok⟩ | ⟨n, hn1, hn, _, hop, hge, hstop, hok⟩
  · subst hnil
    simp at hlen
  · exfalso
    have h1 := hop ind.length (by omega) (le_refl _)
    have h2 := hrk ind.length
    omega
  · refine ⟨_, hok, by simp, ?_, ?_, ?_⟩
    · rw [tree_single]; exact fun h => ETree.noConfusion h
    · rw [tree_single]; simp [ETree.functions_full]
    · simp
  · have hcl : n - 1 = 2 * rank ind n := by
      by_contra hne
      have hlt : (n - 1 : Int) < 2 * (rank ind n : Int) := by omega
      have hnL : ¬ (n : Int) < ((2 * h + 1 : Nat) : Int) := fun hc => hstop ⟨hlt, hc⟩
      have := hrk n
      push_cast at hnL
      omega
    have hroot : ¬ ((n : Int) = ((2 * h + 1 : Nat) : Int) ∧
        (n - 1 : Int) < 2 * (rank ind n : Int)) := by
      intro hc
      have := hc.2
      omega
    rw [if_neg hroot] at hok
    refine ⟨_, hok, by simp, ?_, ?_, ?_⟩
    · rw [tree_layout_root]
      obtain ⟨m, rfl⟩ : ∃ m, n = m + 1 := ⟨n - 1, by omega⟩
      rw [tree_of_layout ind (m + 1) m 0 (by omega)]
      exact fun h => ETree.noConfusion h
    · rw [tree_layout_root]
      exact full_layout ind n hop hn hcl n 0 (by omega) (by omega)
    · simp only [layout_length]
      omega

theorem C1_decoder_closure_witness :
    ∃ r, r_express ['+', '*', 'a', 'a', 'a'] ((2 * 2 + 1 : Nat) : Int) = Outcome.ok r ∧
      r.root ≠ none ∧ r.tree ≠ ETree.null ∧ r.tree.functions_full ∧
      r.heap.length ≤ 2 * 2 + 1 :=
  C1_decoder_closure 2 ['+', '*', 'a', 'a', 'a'] (by decide) (by rfl)
    (by
      intro i h1 h2
      simp only [List.length_cons, List.length_nil] at h2
      interval_cases i <;> rfl)

/-- C2. Level-order round trip: whenever `r_express(ind, len)` returns a tree, the tags of
    the tree in breadth-first order (level by level, left child before right child) are
    the chromosome prefix `ind[0..n)`, `n` the number of nodes of the tree. -/
theorem C2_level_order (ind : List Char) (len : Int) (r : rx_result)
    (hr : r_express ind len = Outcome.ok r) (hroot : r.root ≠ none) :
    r.tree.bfs = ind.take r.tree.size := by
  rcases r_express_spec ind len with
    ⟨hu, _⟩ | ⟨h0, hok⟩ | ⟨n, hn1, hn, _, hop, _, _, hok⟩
  · rw [hu] at hr; cases hr
  · rw [hok] at hr
    cases hr
    rw [tree_single]
    cases ind with
    | nil => simp at h0
    | cons c rest =>
      simp only [List.getElem?_cons_zero, Option.some.injEq] at h0
      subst h0
      rfl
  · rw [hok] at hr
    cases hr
    by_cases hnull : (n : Int) = len ∧ (n - 1 : Int) < 2 * (rank ind n : Int)
    · exact absurd (if_pos hnull) hroot
    · simp only [hnull, if_false]
      rw [tree_layout_root]
      have hb := bfs_layout ind n hop hn1 hn
      have hs : (tree_of (layout ind n) n (some 0)).size = n := by
        rw [← bfs_length, hb, List.length_take]
        omega
      rw [hs, hb]

theorem C2_level_order_witness :
    (rx_result.mk (some 0)
        [et_node_t.mk '+' node_t.FUNCTION (some 1) (some 2),
         et_node_t.mk '*' node_t.FUNCTION (some 3) (some 4),
         et_node_t.mk '-' node_t.FUNCTION (some 5) (some 6),
         et_node_t.mk 'a' node_t.TERMINAL none none,
         et_node_t.mk 'a' node_t.TERMINAL none none,
         et_node_t.mk 'a' node_t.TERMINAL none none,
         et_node_t.mk 'a' node_t.TERMINAL none none]).tree.bfs =
      List.take
        (rx_result.mk (some 0)
          [et_node_t.mk '+' node_t.FUNCTION (some 1) (some 2),
           et_node_t.mk '*' node_t.FUNCTION (some 3) (some 4),
           et_node_t.mk '-' node_t.FUNCTION (some 5) (some 6),
           et_node_t.mk 'a' node_t.TERMINAL none none,
           et_node_t.mk 'a' node_t.TERMINAL none none,
           et_node_t.mk 'a' node_t.TERMINAL none none,
           et_node_t.mk 'a' node_t.TERMINAL none none]).tree.size
        ['+', '*', '-', 'a', 'a', 'a', 'a', 'a', 'a'] :=
  C2_level_order ['+', '*', '-', 'a', 'a', 'a', 'a', 'a', 'a'] 9 _ (by decide!) (by decide)

/-- C3, the code at `ind = "++aaa"`, `len = 2`: both symbols of `ind[0..2)` are functions, so
    three slots are open once they are consumed, yet the result is not `NULL`: the inner
    loop goes on to read `ind[2]`, and the tree returned has a function node without
    children.  On the buffer `"++"` of exactly `len` characters the same read leaves the
    buffer. -/
theorem C3_decode_failure_missed :
    r_express ['+', '+', 'a', 'a', 'a'] 2 =
        Outcome.ok
          { root := some 0,
            heap := [et_node_t.mk '+' node_t.FUNCTION (some 1) (some 2),
                     et_node_t.mk '+' node_t.FUNCTION none none,
                     et_node_t.mk 'a' node_t.TERMINAL none none] } ∧
      (rx_result.mk (some 0)
          [et_node_t.mk '+' node_t.FUNCTION (some 1) (some 2),
           et_node_t.mk '+' node_t.FUNCTION none none,
           et_node_t.mk 'a' node_t.TERMINAL none none]).tree =
        ETree.node '+' node_t.FUNCTION
          (ETree.node '+' node_t.FUNCTION ETree.null ETree.null)
          (ETree.node 'a' node_t.TERMINAL ETree.null ETree.null) ∧
      (2 : Int) * (rank ['+', '+', 'a', 'a', 'a'] 2 : Int) - (2 - 1) = 3 ∧
      r_express ['+', '+'] 2 = Outcome.undef := by
  refine ⟨by decide!, by decide!, by decide!, by decide!⟩

theorem arith_ne_null (t : ETree) (h : t.arith) : t ≠ ETree.null := by
  intro hn
  subst hn
  exact h

theorem eval_arith {D : Type} (ops : DoubleOps D) (x : D) : ∀ (t : ETree), t.arith →
    ∃ v, eval_reference ops t x = some v ∧ eval_etnode ops t x = Outcome.ok v := by
  intro t
  induction t with
  | null => intro h; exact absurd h (by simp [ETree.arith])
  | node tag ty l r ihl ihr =>
    intro h
    by_cases hty : ty = node_t.TERMINAL
    · exact ⟨x, by simp [eval_reference, hty], by simp [eval_etnode, hty]⟩
    · simp only [ETree.arith, hty, false_or] at h
      obtain ⟨htag, hl, hr⟩ := h
      obtain ⟨a, ha1, ha2⟩ := ihl hl
      obtain ⟨b, hb1, hb2⟩ := ihr hr
      have hln := arith_ne_null l hl
      have hrn := arith_ne_null r hr
      simp only [eval_reference, eval_etnode, hty, if_false, hln, hrn, ha1, ha2, hb1, hb2]
      rcases htag with h1 | h1 | h1 | h1
      · subst h1
        exact ⟨ops.add a b, by simp, by simp [apply2]⟩
      · subst h1
        exact ⟨ops.sub a b, by simp, by simp [apply2]⟩
      · subst h1
        exact ⟨ops.mul a b, by simp, by simp [apply2]⟩
      · subst h1
        by_cases hz : ops.is_zero b = true
        · exact ⟨ops.penalty, by simp [hz], by simp [hz]⟩
        · exact ⟨ops.div a b, by simp [hz], by simp [hz, apply2]⟩

/-- C5. Evaluator semantics: on every tree in which each function node has two children and
    a tag among `+ - * /`, and for every input `x`, `eval_etnode` returns the value of the
    recursive reference definition (a terminal is `x`; `+ - *` are `l+r`, `l-r`, `l*r`;
    `/` is `-1000000` when `r` is 0 and `l/r` otherwise).  In particular `(a / a)` at
    `x = 0` evaluates to `-1000000`. -/
theorem C5_eval_semantics {D : Type} (ops : DoubleOps D) (t : ETree) (x : D)
    (h : t.arith) :
    (∃ v, eval_reference ops t x = some v ∧ eval_etnode ops t x = Outcome.ok v) ∧
      eval_etnode ops (ETree.node '/' node_t.FUNCTION (leaf 'a') (leaf 'a')) ops.zero =
        Outcome.ok ops.penalty ∧
      eval_etnode ratOps (ETree.node '/' node_t.FUNCTION (leaf 'a') (leaf 'a')) 0 =
        Outcome.ok (-1000000) := by
  refine ⟨eval_arith ops x t h, ?_, by decide!⟩
  simp [eval_etnode, leaf, ops.is_zero_zero]

theorem C5_eval_semantics_witness :
    (∃ v, eval_reference ratOps
          (ETree.node '/' node_t.FUNCTION
            (ETree.node '+' node_t.FUNCTION (leaf 'a') (leaf 'a')) (leaf 'a')) 3 = some v ∧
        eval_etnode ratOps
          (ETree.node '/' node_t.FUNCTION
            (ETree.node '+' node_t.FUNCTION (leaf 'a') (leaf 'a')) (leaf 'a')) 3 =
          Outcome.ok v) ∧
      eval_etnode ratOps (ETree.node '/' node_t.FUNCTION (leaf 'a') (leaf 'a'))
          ratOps.zero = Outcome.ok ratOps.penalty ∧
      eval_etnode ratOps (ETree.node '/' node_t.FUNCTION (leaf 'a') (leaf 'a')) 0 =
        Outcome.ok (-1000000) :=
  C5_eval_semantics ratOps
    (ETree.node '/' node_t.FUNCTION
      (ETree.node '+' node_t.FUNCTION (leaf 'a') (leaf 'a')) (leaf 'a')) 3
    (by simp [ETree.arith, leaf])

/-- C6, the defect: on a function node whose tag is none of `+ - * / ^`, whatever its
    children are, `eval_etnode` reports no error (it does not abort): it leaves the `switch`
    through `default: break` and returns the local `retval`, which no statement on that
    path has assigned, so the call has no defined value. -/
theorem C6_unknown_operator_unreported {D : Type} (ops : DoubleOps D) (tag : Char)
    (l r : ETree) (x : D)
    (h : tag ≠ '+' ∧ tag ≠ '-' ∧ tag ≠ '*' ∧ tag ≠ '/' ∧ tag ≠ '^') :
    eval_etnode ops (ETree.node tag node_t.FUNCTION l r) x ≠ Outcome.abort ∧
      eval_etnode ops (ETree.node tag node_t.FUNCTION l r) x = Outcome.undef := by
  obtain ⟨h1, h2, h3, h4, h5⟩ := h
  have e : eval_etnode ops (ETree.node tag node_t.FUNCTION l r) x = Outcome.undef := by
    simp [eval_etnode, h1, h2, h3, h4, h5]
  rw [e]
  exact ⟨fun hc => Outcome.noConfusion hc, rfl⟩

theorem C6_unknown_operator_unreported_witness :
    eval_etnode ratOps (ETree.node '%' node_t.FUNCTION (leaf 'a') (leaf 'a')) 1 ≠
        Outcome.abort ∧
      eval_etnode ratOps (ETree.node '%' node_t.FUNCTION (leaf 'a') (leaf 'a')) 1 =
        Outcome.undef :=
  C6_unknown_operator_unreported ratOps '%' (leaf 'a') (leaf 'a') 1 (by decide)

/-! ## The claims on gep.c -/

theorem to_unsigned_eq (x : Int) (h0 : 0 ≤ x) (h1 : x ≤ INT_MAX) :
    (to_unsigned x : Int) = x := by
  unfold to_unsigned
  unfold INT_MAX at h1
  omega

/-- C7, the code at `hl = ma = 65536` (two values of type `int`): the 32-bit field
    `individual_length` holds 1, not `hl * ma + 1 = 4294967297`. -/
theorem C7_length_wraps :
    ∃ g, gep_create_genome 1 (some ['a']) 4 (some ['*', '-', '+', '/']) 65536 65536 =
        Outcome.ok g ∧ g.individual_length = 1 ∧
      (g.individual_length : Int) ≠ 65536 * 65536 + 1 :=
  ⟨_, rfl, by decide!, by decide!⟩

/-- C7 as amended: for every genome returned by `gep_create_genome(nt, tc, nf, fc, hl, ma)`
    on arguments of type `int` (then `nt, nf, hl, ma > 0`) with `hl * ma + 1 ≤ INT_MAX`,
    `individual_length = hl * ma + 1`, `head_length = hl`, `max_arity = ma`,
    `num_terminals = nt` and `num_functions = nf`. -/
theorem C7_individual_length (nt nf hl ma : Int) (tc fc : Option (List Char))
    (g : gep_genome_t) (hnt : nt ≤ INT_MAX) (hnf : nf ≤ INT_MAX)
    (hfit : hl * ma + 1 ≤ INT_MAX)
    (hr : gep_create_genome nt tc nf fc hl ma = Outcome.ok g) :
    (nt > 0 ∧ nf > 0 ∧ hl > 0 ∧ ma > 0) ∧
      (g.individual_length : Int) = hl * ma + 1 ∧ (g.head_length : Int) = hl ∧
      (g.max_arity : Int) = ma ∧ (g.num_terminals : Int) = nt ∧
      (g.num_functions : Int) = nf := by
  unfold gep_create_genome at hr
  by_cases h1 : nt > 0
  · by_cases h2 : nf > 0
    · by_cases h3 : hl > 0
      · by_cases h4 : ma > 0
        · simp only [h1, h2, h3, h4, not_true_eq_false, if_false] at hr
          cases tc with
          | none => cases hr
          | some tc =>
            cases fc with
            | none => cases hr
            | some fc =>
              simp only at hr
              split at hr
              · cases hr
              · cases hr
                have hmul : hl ≤ hl * ma := by nlinarith
                have hmul2 : ma ≤ hl * ma := by nlinarith
                have e : hl * (ma - 1) + 1 + hl = hl * ma + 1 := by ring
                refine ⟨⟨h1, h2, h3, h4⟩, ?_, ?_, ?_, ?_, ?_⟩
                · show (to_unsigned (hl * (ma - 1) + 1 + hl) : Int) = hl * ma + 1
                  rw [e]
                  exact to_unsigned_eq _ (by nlinarith) hfit
                · exact to_unsigned_eq _ (by omega) (by omega)
                · exact to_unsigned_eq _ (by omega) (by omega)
                · exact to_unsigned_eq _ (by omega) hnt
                · exact to_unsigned_eq _ (by omega) hnf
        · simp [h1, h2, h3, h4] at hr
      · simp [h1, h2, h3] at hr
    · simp [h1, h2] at hr
  · simp [h1] at hr

theorem C7_individual_length_witness :
    ((1 : Int) > 0 ∧ (4 : Int) > 0 ∧ (150 : Int) > 0 ∧ (2 : Int) > 0) ∧
      (driver_genome.individual_length : Int) = 150 * 2 + 1 ∧
      (driver_genome.head_length : Int) = 150 ∧ (driver_genome.max_arity : Int) = 2 ∧
      (driver_genome.num_terminals : Int) = 1 ∧ (driver_genome.num_functions : Int) = 4 :=
  C7_individual_length 1 4 150 2 (some ['a']) (some ['*', '-', '+', '/']) driver_genome
    (by decide) (by decide) (by decide) (by decide!)

/-- C8, the code on the genome of the driver (`nt = 1`, `nf = 4`) at a head position: for
    the draw `k = 1932735282` (`rv` about 0.9) the index is `b = 4`, which is not `> nf`,
    so `functions[4]` is read, outside of the four functions; for `k = RAND_MAX`
    (`rv = 1`) the index is `b = 5` and `terminals[5 - 4]` is read, outside of the one
    terminal.  In both cases no symbol of the alphabet is determined. -/
theorem C8_head_mutation_leaves_alphabet :
    to_int (unit_draw 1932735282 * ((1 + 4 : Nat) : ℚ)) = 4 ∧
      read_at driver_genome.functions 4 = Outcome.undef ∧
      mutation_symbol driver_genome 0 (unit_draw 1932735282) = Outcome.undef ∧
      to_int (unit_draw RAND_MAX * ((1 + 4 : Nat) : ℚ)) = 5 ∧
      read_at driver_genome.terminals (5 - 4) = Outcome.undef ∧
      mutation_symbol driver_genome 0 (unit_draw RAND_MAX) = Outcome.undef := by
  refine ⟨by decide!, by decide!, by decide!, by decide!, by decide!, by decide!⟩

/-- C9, the code on the genome of the driver for the draw `k = RAND_MAX` (`r = 1`): at a
    head position the index is `floor(5 * 1) = 5 ≥ nt`, so `functions[4]` is read, outside
    of the array; at a tail position `terminals[1]` is read, outside of the array.  With
    that draw first, `gep_create_population` has no defined result. -/
theorem C9_initialization_leaves_alphabet (rest : List Nat) :
    init_symbol driver_genome 0 RAND_MAX = Outcome.undef ∧
      init_symbol driver_genome 150 RAND_MAX = Outcome.undef ∧
      gep_create_population driver_genome 200 (34 / 100) (4 / 10) (3 / 10) 4000
        (RAND_MAX :: rest) = Outcome.undef := by
  have h0 : init_symbol driver_genome 0 RAND_MAX = Outcome.undef := by decide!
  refine ⟨h0, by decide!, ?_⟩
  have hn : (200 : Int).toNat = 199 + 1 := by decide
  have hL : driver_genome.individual_length = 300 + 1 := by decide
  unfold gep_create_population
  rw [hn]
  unfold create_individuals
  rw [hL]
  unfold create_individual
  simp only [h0, Outcome.bind]
  norm_num

theorem small_population_tail_closed (g : gep_genome_t) (hh : g.head_length = 2)
    (ha : 'a' ∈ g.terminals) :
    ∀ ind ∈ (small_population g).individuals, tail_closed g ind := by
  intro ind hind i hi c hc
  rw [hh] at hi
  simp only [small_population, List.mem_cons, List.mem_singleton, List.not_mem_nil,
    or_false] at hind
  have hi5 : i < 5 := by
    by_contra hcon
    rcases hind with h | h <;> subst h <;>
      rw [List.getElem?_eq_none (by simp; omega)] at hc <;> cases hc
  rcases hind with h | h <;> subst h <;> interval_cases i <;>
    simp at hc <;> subst hc <;> exact ha

/-- C10, the code on two populations whose chromosomes all have a tail of terminals.
    With two terminals, the draws `0` (mutate), `1800000000` (position 4, in the tail) and
    `RAND_MAX` (`rv = 1`) make the mutation read `terminals[2]`, outside of the array, for
    the symbol it stores in the tail.  With the alphabet of the driver, the draws
    `RAND_MAX, RAND_MAX` (no mutation), `0` (recombine), `RAND_MAX` (`a = 2 = i`) and `0`
    (`b = 0`) make the pairing read `idx[2]`, outside of the index array, for the first
    individual to recombine.  In both runs the behaviour is undefined; no population with
    terminal tails is determined. -/
theorem C10_tail_closure_lost (rest : List Nat) :
    (∀ ind ∈ (small_population two_terminal_genome).individuals,
        tail_closed two_terminal_genome ind) ∧
      to_int (unit_draw 1800000000 * (5 : ℚ)) = 4 ∧
      mutation_symbol two_terminal_genome 4 (unit_draw RAND_MAX) = Outcome.undef ∧
      gep_next_generation (small_population two_terminal_genome)
        (0 :: 1800000000 :: RAND_MAX :: rest) = Outcome.undef ∧
      (∀ ind ∈ (small_population short_genome).individuals,
        tail_closed short_genome ind) ∧
      read_idx (List.range 2) (to_int ((2 : ℚ) * unit_draw RAND_MAX)) = Outcome.undef ∧
      gep_next_generation (small_population short_genome)
        (RAND_MAX :: RAND_MAX :: 0 :: RAND_MAX :: 0 :: rest) = Outcome.undef := by
  have hm : mutation_symbol two_terminal_genome 4 (unit_draw RAND_MAX) = Outcome.undef := by
    decide!
  have ha : to_int (unit_draw 1800000000 * (5 : ℚ)) = 4 := by decide!
  have hidx : read_idx (List.range 2) (to_int ((2 : ℚ) * unit_draw RAND_MAX)) =
      Outcome.undef := by decide!
  refine ⟨small_population_tail_closed _ rfl (by decide), ha, hm, ?_,
    small_population_tail_closed _ rfl (by decide), hidx, ?_⟩
  · have h1 : unit_draw 0 < (small_population two_terminal_genome).p_m := by decide!
    have hL : ((small_population two_terminal_genome).genome.individual_length : ℚ) = 5 := by
      simp [small_population, two_terminal_genome]
    have hmut : mutate_individual (small_population two_terminal_genome)
        ['+', 'a', 'a', 'a', 'a'] (0 :: 1800000000 :: RAND_MAX :: rest) = Outcome.undef := by
      unfold mutate_individual
      simp only [h1, if_true, hL, ha]
      have hg : (small_population two_terminal_genome).genome = two_terminal_genome := rfl
      rw [hg, hm]
      rfl
    have hloop : mutation_loop (small_population two_terminal_genome) 2 0
        (small_population two_terminal_genome).individuals
        (0 :: 1800000000 :: RAND_MAX :: rest) = Outcome.undef := by
      unfold mutation_loop
      have : (small_population two_terminal_genome).individuals[0]? =
          some ['+', 'a', 'a', 'a', 'a'] := rfl
      simp only [this, hmut]
      rfl
    unfold gep_next_generation
    have hN : (small_population two_terminal_genome).num_individuals = 2 := rfl
    rw [hN, hloop]
    rfl
  · have h1 : ¬ unit_draw RAND_MAX < (small_population short_genome).p_m := by decide!
    have h2 : unit_draw 0 < (small_population short_genome).p_x1 := by decide!
    have hmut : ∀ (ind : List Char) (ds : List Nat),
        mutate_individual (small_population short_genome) ind (RAND_MAX :: ds) =
          Outcome.ok (ind, ds) := by
      intro ind ds
      unfold mutate_individual
      simp only [h1, if_false]
    have hloop : mutation_loop (small_population short_genome) 2 0
        (small_population short_genome).individuals
        (RAND_MAX :: RAND_MAX :: 0 :: RAND_MAX :: 0 :: rest) =
          Outcome.ok ((small_population short_genome).individuals,
            0 :: RAND_MAX :: 0 :: rest) := by
      have e0 : (small_population short_genome).individuals[0]? =
          some ['+', 'a', 'a', 'a', 'a'] := rfl
      unfold mutation_loop
      simp only [e0, hmut, Outcome.bind]
      unfold mutation_loop
      have e1 : ((small_population short_genome).individuals.set 0
          ['+', 'a', 'a', 'a', 'a'])[0 + 1]? = some ['*', 'a', 'a', 'a', 'a'] := rfl
      simp only [e1, hmut, Outcome.bind]
      unfold mutation_loop
      rfl
    have hother : draw_other 2 (to_int ((2 : ℚ) * unit_draw RAND_MAX)) (0 :: rest) =
        Outcome.ok (0, rest) := by
      unfold draw_other
      have e0 : to_int ((2 : ℚ) * unit_draw 0) = 0 := by decide!
      have e1 : ¬ (0 : Int) = to_int ((2 : ℚ) * unit_draw RAND_MAX) := by decide!
      simp only [Int.cast_ofNat, e0, e1, if_false]
    have hrec : recombination_loop (small_population short_genome) 2 0 2 (List.range 2)
        (small_population short_genome).individuals (0 :: RAND_MAX :: 0 :: rest) =
          Outcome.undef := by
      unfold recombination_loop
      have hj : ((0 : Nat) : Int) < 2 := by decide
      simp only [hj, if_true, h2, Int.cast_ofNat, hother, Outcome.bind, hidx]
    unfold gep_next_generation
    have hN : (small_population short_genome).num_individuals = 2 := rfl
    rw [hN, hloop]
    simp only [Outcome.bind]
    have hc : ((2 : Nat) : Int) = 2 := rfl
    rw [hc, hrec]

/-! ### The recombination loop and its recorded run -/

theorem bind_assoc {α β γ : Type} (o : Outcome α) (f : α → Outcome β) (g : β → Outcome γ) :
    (o.bind f).bind g = o.bind fun x => (f x).bind g := by
  cases o <;> rfl

theorem bind_ok {α β : Type} (v : α) (f : α → Outcome β) : (Outcome.ok v).bind f = f v :=
  rfl

theorem bind_eq_ok {α β : Type} (o : Outcome α) (f : α → Outcome β) (w : β)
    (h : o.bind f = Outcome.ok w) : ∃ v, o = Outcome.ok v ∧ f v = Outcome.ok w := by
  cases o with
  | ok v => exact ⟨v, rfl, h⟩
  | abort => cases h
  | undef => cases h
  | timeout => cases h

/-- The recorded run is the recombination loop of `gep_next_generation`: both give the same
    individuals and the same draws left over, and end in the same way otherwise. -/
theorem recombination_loop_eq_run (p : gep_population_t) : ∀ (fuel : Nat) (s : recomb_state),
    recombination_loop p fuel s.j s.i s.idx s.inds s.draws =
      (recombination_run p fuel s).bind fun s2 => Outcome.ok (s2.inds, s2.draws) := by
  intro fuel
  induction fuel with
  | zero =>
    intro s
    unfold recombination_loop recombination_run
    by_cases hj : (s.j : Int) < s.i
    · simp only [hj, if_true]; rfl
    · simp only [hj, if_false]; rfl
  | succ f ih =>
    intro s
    conv => lhs; unfold recombination_loop
    conv => rhs; unfold recombination_run
    by_cases hj : (s.j : Int) < s.i
    · simp only [hj, if_true]
      cases hd : s.draws with
      | nil => rfl
      | cons k1 ds =>
        simp only
        by_cases hx : unit_draw k1 < p.p_x1
        · simp only [hx, if_true]
          cases ds with
          | nil => rfl
          | cons k2 ds2 =>
            simp only [remove_pair, bind_assoc, bind_ok]
            cases draw_other s.i (to_int ((s.i : ℚ) * unit_draw k2)) ds2 with
            | ok r =>
              simp only [bind_ok]
              cases read_idx s.idx (to_int ((s.i : ℚ) * unit_draw k2)) with
              | ok aa =>
                simp only [bind_ok]
                cases read_idx s.idx r.1 with
                | ok bb =>
                  simp only [bind_ok]
                  cases read_idx s.idx (s.i - 1) with
                  | ok v1 =>
                    simp only [bind_ok]
                    cases write_idx s.idx (to_int ((s.i : ℚ) * unit_draw k2)) v1 with
                    | ok idx1 =>
                      simp only [bind_ok]
                      cases read_idx idx1 (s.i - 2) with
                      | ok v2 =>
                        simp only [bind_ok]
                        cases write_idx idx1 r.1 v2 with
                        | ok idx2 =>
                          simp only [bind_ok]
                          cases r.2 with
                          | nil => rfl
                          | cons k4 ds4 =>
                            simp only
                            split
                            · rfl
                            · cases swap_tails s.inds aa bb
                                (to_int (unit_draw k4 *
                                  (p.genome.individual_length : ℚ))).toNat
                                ((p.genome.individual_length : Int) -
                                  to_int (unit_draw k4 *
                                    (p.genome.individual_length : ℚ))).toNat with
                              | ok inds2 =>
                                simp only [bind_ok]
                                exact ih { j := s.j + 1, i := s.i - 2, idx := idx2,
                                           inds := inds2, draws := ds4,
                                           pairs := s.pairs ++ [(aa, bb)],
                                           sizes := s.sizes ++ [s.i] }
                              | abort => rfl
                              | undef => rfl
                              | timeout => rfl
                        | abort => rfl
                        | undef => rfl
                        | timeout => rfl
                      | abort => rfl
                      | undef => rfl
                      | timeout => rfl
                    | abort => rfl
                    | undef => rfl
                    | timeout => rfl
                  | abort => rfl
                  | undef => rfl
                  | timeout => rfl
                | abort => rfl
                | undef => rfl
                | timeout => rfl
              | abort => rfl
              | undef => rfl
              | timeout => rfl
            | abort => rfl
            | undef => rfl
            | timeout => rfl
        · simp only [hx, if_false]
          exact ih { s with j := s.j + 1, draws := ds }
    · simp only [hj, if_false]
      rfl

/-! ## The claims on recombination, selection and construction -/

theorem init_symbol_zero (j : Nat) : init_symbol driver_genome j 0 = Outcome.ok 'a' := by
  unfold init_symbol
  by_cases hj : j < driver_genome.head_length
  · simp only [hj, if_true]
    decide!
  · simp only [hj, if_false]
    decide!

theorem create_individual_zero (rest : List Nat) : ∀ (todo j : Nat),
    create_individual driver_genome todo j (List.replicate todo 0 ++ rest) =
      Outcome.ok (List.replicate todo 'a', rest) := by
  intro todo
  induction todo with
  | zero => intro j; rfl
  | succ t ih =>
    intro j
    rw [List.replicate_succ, List.cons_append]
    unfold create_individual
    simp only [init_symbol_zero, bind_ok, ih (j + 1)]
    rfl

theorem create_individuals_zero : ∀ (todo : Nat) (rest : List Nat),
    create_individuals driver_genome todo (List.replicate (todo * 301) 0 ++ rest) =
      Outcome.ok (List.replicate todo (List.replicate 301 'a'), rest) := by
  intro todo
  induction todo with
  | zero => intro rest; rfl
  | succ t ih =>
    intro rest
    have e : List.replicate ((t + 1) * 301) 0 ++ rest =
        List.replicate 301 0 ++ (List.replicate (t * 301) 0 ++ rest) := by
      rw [← List.append_assoc, ← List.replicate_add]
      congr 2
      omega
    have hL : driver_genome.individual_length = 301 := rfl
    rw [e]
    unfold create_individuals
    rw [hL, create_individual_zero, bind_ok]
    simp only
    rw [ih rest, bind_ok]
    rfl

theorem driver_population_created :
    gep_create_population driver_genome 200 (34 / 100) (4 / 10) (3 / 10) 4000
        (List.replicate (200 * 301) 0) = Outcome.ok (driver_population, []) := by
  have h := create_individuals_zero 200 []
  rw [List.append_nil] at h
  have hn : (200 : Int).toNat = 200 := rfl
  unfold gep_create_population
  have h0 : (200 : Int) > 0 := by decide
  have h1 : (34 : ℚ) / 100 ≥ 0 := by norm_num
  have h2 : (34 : ℚ) / 100 ≤ 1 := by norm_num
  have h3 : (4 : ℚ) / 10 ≥ 0 := by norm_num
  have h4 : (4 : ℚ) / 10 ≤ 1 := by norm_num
  have h5 : (3 : ℚ) / 10 ≥ 0 := by norm_num
  have h6 : (3 : ℚ) / 10 ≤ 1 := by norm_num
  simp only [h0, h1, h2, h3, h4, h5, h6, not_true_eq_false, if_false, hn, h, bind_ok]
  rfl

theorem rat_floor_eq (x : ℚ) : Rat.floor x = ⌊x⌋ := rfl

theorem unit_draw_range (k : Nat) (hk : k < RAND_MAX) :
    0 ≤ unit_draw k ∧ unit_draw k < 1 := by
  unfold unit_draw
  have hpos : (0 : ℚ) < (RAND_MAX : ℚ) := by
    have : 0 < RAND_MAX := by decide
    exact_mod_cast this
  constructor
  · exact div_nonneg (by exact_mod_cast Nat.zero_le k) (le_of_lt hpos)
  · rw [div_lt_one hpos]
    exact_mod_cast hk

theorem select_rank_max (c : Nat) : select_rank (c : Int) RAND_MAX = (c : Int) := by
  have h1 : unit_draw RAND_MAX = 1 := by
    unfold unit_draw
    exact div_self (by decide)
  unfold select_rank to_int
  rw [h1, one_mul, if_pos (by exact_mod_cast Int.natCast_nonneg c), rat_floor_eq]
  exact Int.floor_intCast _

theorem flcompare_le_iff (a b : flist_t) : flcompare a b ≤ 0 ↔ b.fv ≤ a.fv := by
  unfold flcompare
  by_cases h1 : a.fv > b.fv
  · rw [if_pos h1]
    constructor
    · intro _; exact le_of_lt h1
    · intro _; decide
  · by_cases h2 : a.fv = b.fv
    · rw [if_neg h1, if_pos h2]
      constructor
      · intro _; exact le_of_eq h2.symm
      · intro _; decide
    · rw [if_neg h1, if_neg h2]
      constructor
      · intro h; exact absurd h (by decide)
      · intro h
        exact absurd (lt_of_le_of_ne h (Ne.symm h2)) h1

theorem chain_of_ranked_adjacent : ∀ (fl : List flist_t), ranked_adjacent fl = true →
    fl.Chain' (fun a b => flcompare a b ≤ 0) := by
  intro fl
  induction fl with
  | nil => intro _; exact List.chain'_nil
  | cons a l ih =>
    intro h
    cases l with
    | nil => exact List.chain'_singleton a
    | cons b rest =>
      simp only [ranked_adjacent, Bool.and_eq_true, decide_eq_true_eq] at h
      exact List.Chain'.cons h.1 (ih h.2)

theorem ranking_of_adjacent (fit : List Char → ℚ) (inds : List (List Char))
    (fl : List flist_t) (hp : fl.Perm (score fit inds)) (hc : ranked_adjacent fl = true) :
    ranking fit inds fl := by
  haveI : IsTrans flist_t (fun a b => flcompare a b ≤ 0) :=
    ⟨fun a b c hab hbc => by
      rw [flcompare_le_iff] at hab hbc ⊢
      exact le_trans hbc hab⟩
  exact ⟨hp, List.chain'_iff_pairwise.mp (chain_of_ranked_adjacent fl hc)⟩

theorem driver_population_ranking :
    ranking identity_fitness driver_population.individuals
      (score identity_fitness driver_population.individuals) :=
  ranking_of_adjacent _ _ _ (List.Perm.refl _) (by decide!)

theorem driver_population_fitness :
    ∀ c ∈ driver_population.individuals, identity_fitness c = 0 := by
  intro c hc
  have hc2 : c ∈ List.replicate POPSIZE (List.replicate 301 'a') := hc
  rw [List.eq_of_mem_replicate hc2]
  have e : List.replicate 301 'a' = 'a' :: List.replicate 300 'a' := rfl
  rw [e]
  rfl

theorem driver_population_selected :
    slot_fitness identity_fitness 0
        (driver_select POPSIZE driver_population
          (score identity_fitness driver_population.individuals)
          (List.replicate 199 0 ++ [0, 0, 0] ++ List.replicate 399 2000000000)) =
      Outcome.ok 0 := by
  decide!

theorem driver_population_varied :
    slot_fitness identity_fitness 0
        (driver_generation POPSIZE driver_population
          (score identity_fitness driver_population.individuals)
          (List.replicate 199 0 ++ [0, 0, 0] ++ List.replicate 399 2000000000)) =
      Outcome.ok (-1) := by
  decide!

/-- C12, the code on the population of the driver in which every chromosome is all `'a'`
    (the population that `gep_create_population` returns when every draw is 0),
    with the fitness function that gives 0 to a chromosome starting with `'a'` and -1 to
    every other one: the best fitness before selection is 0 and selection copies the best
    into slot 0, but `gep_next_generation` then mutates slot 0 like every other slot (draws
    `0, 0, 0`: mutate, position 0, `functions[0]`), and the fitness of slot 0 of the new
    population is -1. -/
theorem C12_elite_is_mutated :
    gep_create_population driver_genome 200 (34 / 100) (4 / 10) (3 / 10) 4000
        (List.replicate (200 * 301) 0) = Outcome.ok (driver_population, []) ∧
      ranking identity_fitness driver_population.individuals
        (score identity_fitness driver_population.individuals) ∧
      (∀ c ∈ driver_population.individuals, identity_fitness c = 0) ∧
      slot_fitness identity_fitness 0
          (driver_select POPSIZE driver_population
            (score identity_fitness driver_population.individuals)
            (List.replicate 199 0 ++ [0, 0, 0] ++ List.replicate 399 2000000000)) =
        Outcome.ok 0 ∧
      slot_fitness identity_fitness 0
          (driver_generation POPSIZE driver_population
            (score identity_fitness driver_population.individuals)
            (List.replicate 199 0 ++ [0, 0, 0] ++ List.replicate 399 2000000000)) =
        Outcome.ok (-1) :=
  And.intro driver_population_created
    (And.intro driver_population_ranking
      (And.intro driver_population_fitness
        (And.intro driver_population_selected driver_population_varied)))

/-- For a draw below `RAND_MAX` the rank used by selection is one of the top `c` ranks. -/
theorem select_rank_lt (c k : Nat) (hc : 1 ≤ c) (hk : k < RAND_MAX) :
    0 ≤ select_rank (c : Int) k ∧ select_rank (c : Int) k < (c : Int) := by
  have hr := unit_draw_range k hk
  have hc0 : (0 : ℚ) < ((c : Int) : ℚ) := by
    have : (0 : Int) < (c : Int) := by omega
    exact_mod_cast this
  have h0 : 0 ≤ unit_draw k * ((c : Int) : ℚ) := mul_nonneg hr.1 (le_of_lt hc0)
  unfold select_rank to_int
  rw [if_pos h0, rat_floor_eq]
  constructor
  · exact Int.floor_nonneg.mpr h0
  · rw [Int.floor_lt]
    calc unit_draw k * ((c : Int) : ℚ) < 1 * ((c : Int) : ℚ) :=
          mul_lt_mul_of_pos_right hr.2 hc0
      _ = (((c : Int) : Int) : ℚ) := by rw [one_mul]

/-- C13, the code for the draw `rand() = RAND_MAX`: the rank is `j = (int)(1.0 * cutoff) =
    cutoff`, for every cutoff; with `POPSIZE = 200` the cutoff is 100 and `j = 100`.  On the
    population whose 100 best individuals have fitness 0 and whose other individuals have
    fitness -1, slot 1 then receives the individual of rank 100, of fitness -1, which is
    none of the top 100. -/
theorem C13_rank_cutoff_selected :
    (∀ c : Nat, select_rank (c : Int) RAND_MAX = (c : Int)) ∧
      cutoff_of POPSIZE = 100 ∧ select_rank 100 RAND_MAX = 100 ∧
      ranking identity_fitness split_population.individuals
        (score identity_fitness split_population.individuals) ∧
      (∀ e ∈ (score identity_fitness split_population.individuals).take 100, e.fv = 0) ∧
      ((score identity_fitness split_population.individuals)[100]?).map (fun e => e.fv) =
        (some (-1) : Option ℚ) ∧
      slot_fitness identity_fitness 1
          (driver_select POPSIZE split_population
            (score identity_fitness split_population.individuals)
            (RAND_MAX :: List.replicate 198 0)) = Outcome.ok (-1) := by
  have h1 : cutoff_of POPSIZE = 100 := by decide!
  have h2 : select_rank 100 RAND_MAX = 100 := by decide!
  have h3 : ranking identity_fitness split_population.individuals
      (score identity_fitness split_population.individuals) :=
    ranking_of_adjacent _ _ _ (List.Perm.refl _) (by decide!)
  have h4 : ∀ e ∈ (score identity_fitness split_population.individuals).take 100,
      e.fv = 0 := by decide!
  have h5 : ((score identity_fitness split_population.individuals)[100]?).map
      (fun e => e.fv) = (some (-1) : Option ℚ) := by decide!
  have h6 : slot_fitness identity_fitness 1
      (driver_select POPSIZE split_population
        (score identity_fitness split_population.individuals)
        (RAND_MAX :: List.replicate 198 0)) = Outcome.ok (-1) := by decide!
  exact ⟨select_rank_max, h1, h2, h3, h4, h5, h6⟩

/-- C14. `gep_create_genome(nt, tc, nf, fc, hl, ma)` ends in an assertion failure, without
    a genome, exactly when `nt ≤ 0` or `nf ≤ 0` or `hl ≤ 0` or `ma ≤ 0` or one of the two
    arrays is `NULL`; in every other case, `tc` holding at least its `nt` terminals and `fc`
    at least its `nf` functions, it returns a genome that holds the `nt` terminals and the
    `nf` functions in their given order.  (Allocation is taken to succeed.) -/
theorem C14_create_genome_failure (nt nf hl ma : Int) (tc fc : Option (List Char)) :
    (gep_create_genome nt tc nf fc hl ma = Outcome.abort ↔
        (nt ≤ 0 ∨ nf ≤ 0 ∨ hl ≤ 0 ∨ ma ≤ 0 ∨ tc = none ∨ fc = none)) ∧
      ∀ t f, tc = some t → fc = some f → 0 < nt → 0 < nf → 0 < hl → 0 < ma →
        nt ≤ (t.length : Int) → nf ≤ (f.length : Int) →
        ∃ g, gep_create_genome nt tc nf fc hl ma = Outcome.ok g ∧
          g.terminals = t.take nt.toNat ∧ g.functions = f.take nf.toNat ∧
          g.terminals.length = nt.toNat ∧ g.functions.length = nf.toNat := by
  constructor
  · unfold gep_create_genome
    by_cases h1 : nt > 0
    · by_cases h2 : nf > 0
      · by_cases h3 : hl > 0
        · by_cases h4 : ma > 0
          · simp only [h1, h2, h3, h4, not_true_eq_false, if_false]
            cases tc with
            | none => simp
            | some t =>
              cases fc with
              | none => simp
              | some f =>
                simp only
                constructor
                · intro h
                  split at h <;> cases h
                · intro h
                  rcases h with h | h | h | h | h | h
                  · omega
                  · omega
                  · omega
                  · omega
                  · cases h
                  · cases h
          · simp only [h1, h2, h3, h4, not_true_eq_false, not_false_eq_true, if_true, if_false,
              true_iff]
            right; right; right; left; omega
        · simp only [h1, h2, h3, not_true_eq_false, not_false_eq_true, if_true, if_false,
            true_iff]
          right; right; left; omega
      · simp only [h1, h2, not_true_eq_false, not_false_eq_true, if_true, if_false, true_iff]
        right; left; omega
    · simp only [h1, not_false_eq_true, if_true, true_iff]
      left; omega
  · intro t f ht hf h1 h2 h3 h4 h5 h6
    subst ht
    subst hf
    have hlen : ¬ ((t.length : Int) < nt ∨ (f.length : Int) < nf) := by omega
    refine ⟨{ terminals := t.take nt.toNat, functions := f.take nf.toNat,
              num_terminals := to_unsigned nt, num_functions := to_unsigned nf,
              head_length := to_unsigned hl, max_arity := to_unsigned ma,
              individual_length := to_unsigned ((hl * (ma - 1)) + 1 + hl),
              genes_per_chromosome := 0 }, ?_, rfl, rfl, ?_, ?_⟩
    · unfold gep_create_genome
      simp only [gt_iff_lt, h1, h2, h3, h4, not_true_eq_false, if_false, hlen]
    · simp only [List.length_take]
      omega
    · simp only [List.length_take]
      omega

theorem C14_create_genome_failure_witness :
    ∃ g, gep_create_genome 1 (some ['a']) 4 (some ['*', '-', '+', '/']) 150 2 =
        Outcome.ok g ∧
      g.terminals = ['a'].take (1 : Int).toNat ∧
      g.functions = ['*', '-', '+', '/'].take (4 : Int).toNat ∧
      g.terminals.length = (1 : Int).toNat ∧ g.functions.length = (4 : Int).toNat :=
  (C14_create_genome_failure 1 4 150 2 (some ['a']) (some ['*', '-', '+', '/'])).2
    ['a'] ['*', '-', '+', '/'] rfl rfl (by decide) (by decide) (by decide) (by decide)
    (by decide) (by decide)

theorem recombination_run_exit (p : gep_population_t) :
    ∀ (fuel : Nat) (s s2 : recomb_state), recombination_run p fuel s = Outcome.ok s2 →
      s2.i ≤ (s2.j : Int) ∧
        s2.i + 2 * (s2.pairs.length : Int) = s.i + 2 * (s.pairs.length : Int) ∧
        s.j ≤ s2.j := by
  intro fuel
  induction fuel with
  | zero =>
    intro s s2 h
    unfold recombination_run at h
    by_cases hj : (s.j : Int) < s.i
    · simp only [hj, if_true] at h
      cases h
    · simp only [hj, if_false, Outcome.ok.injEq] at h
      subst h
      exact ⟨by omega, rfl, le_refl _⟩
  | succ f ih =>
    intro s s2 h
    unfold recombination_run at h
    by_cases hj : (s.j : Int) < s.i
    · simp only [hj, if_true] at h
      cases hd : s.draws with
      | nil => rw [hd] at h; cases h
      | cons k1 ds =>
        rw [hd] at h
        simp only at h
        by_cases hx : unit_draw k1 < p.p_x1
        · simp only [hx, if_true] at h
          cases ds with
          | nil => cases h
          | cons k2 ds2 =>
            simp only at h
            obtain ⟨r, _, h⟩ := bind_eq_ok _ _ _ h
            obtain ⟨rp, _, h⟩ := bind_eq_ok _ _ _ h
            cases hr2 : r.2 with
            | nil => rw [hr2] at h; cases h
            | cons k4 ds4 =>
              rw [hr2] at h
              simp only at h
              split at h
              · cases h
              · obtain ⟨inds2, _, h⟩ := bind_eq_ok _ _ _ h
                obtain ⟨h1, h2, h3⟩ := ih _ _ h
                simp only [List.length_append, List.length_cons, List.length_nil] at h2
                simp only at h3
                refine ⟨h1, ?_, by omega⟩
                push_cast at h2
                omega
        · simp only [hx, if_false] at h
          obtain ⟨h1, h2, h3⟩ := ih _ _ h
          simp only at h2 h3
          exact ⟨h1, h2, by omega⟩
    · simp only [hj, if_false, Outcome.ok.injEq] at h
      subst h
      exact ⟨by omega, rfl, le_refl _⟩

/-- C15, the code on four individuals: with `a = 0` and `b = 3 = i - 1` the statements
    `idx[a] = idx[i-1]; idx[b] = idx[i-2]` leave the pool `idx[0..2) = [3, 1]`: the
    individual 3, just paired, is back in the pool and the unpaired individual 2 is out of
    it.  With a second pairing, individual 3 is recombined twice in one call: the pairs are
    `(0, 3)` and `(3, 1)`. -/
theorem C15_paired_index_stays_in_pool :
    remove_pair [0, 1, 2, 3] 4 0 3 = Outcome.ok (0, 3, [3, 1, 2, 2]) ∧
      ((recombination_run four_population 4
          (recomb_start 4 four_population.individuals
            [0, 0, 1800000000, 500000000, 0, 0, 1500000000, 0])).bind
        fun s => Outcome.ok (s.pairs, s.inds)) =
        Outcome.ok ([(0, 3), (3, 1)],
          [['+', '/', 'a', 'a', 'a'], ['/', '+', 'a', 'a', 'a'],
           ['-', '-', 'a', 'a', 'a'], ['*', '*', 'a', 'a', 'a']]) ∧
      gep_next_generation four_population
          [2000000000, 2000000000, 2000000000, 2000000000,
           0, 0, 1800000000, 500000000, 0, 0, 1500000000, 0] =
        Outcome.ok
          ({ four_population with
              individuals := [['+', '/', 'a', 'a', 'a'], ['/', '+', 'a', 'a', 'a'],
                              ['-', '-', 'a', 'a', 'a'], ['*', '*', 'a', 'a', 'a']] }, []) := by
  refine ⟨by decide!, by decide!, by decide!⟩

/-- C16, the code on four individuals with one pair drawn at `j = 0` and none at `j = 1`,
    and on two individuals with no pair drawn: the loop ends with `j = i = 2`, two indices
    are still in the pool. -/
theorem C16_pool_not_exhausted :
    ((recombination_run four_population 4
          (recomb_start 4 four_population.individuals
            [0, 0, 1800000000, 500000000, 2000000000])).bind
        fun s => Outcome.ok (s.i, s.j, s.pairs)) = Outcome.ok (2, 2, [(0, 3)]) ∧
      ((recombination_run (small_population short_genome) 2
          (recomb_start 2 (small_population short_genome).individuals
            [2000000000, 2000000000])).bind
        fun s => Outcome.ok (s.i, s.j, s.pairs)) = Outcome.ok (2, 2, []) ∧
      ¬ ((2 : Int) < 2) := by
  refine ⟨by decide!, by decide!, by decide⟩

/-- C16 as amended: for every population size `N` and every sequence of draws, when the
    recombination loop of `gep_next_generation` ends, the loop counter has reached the pool
    size (`i ≤ j`), and the pool size is `i = N - 2 * (number of pairs recombined)`; it is
    below 2 only when enough pairs were drawn. -/
theorem C16_loop_exit (p : gep_population_t) (n fuel : Nat) (inds : List (List Char))
    (draws : List Nat) (s2 : recomb_state)
    (h : recombination_run p fuel (recomb_start n inds draws) = Outcome.ok s2) :
    s2.i ≤ (s2.j : Int) ∧ s2.i = (n : Int) - 2 * (s2.pairs.length : Int) := by
  obtain ⟨h1, h2, _⟩ := recombination_run_exit p fuel _ _ h
  refine ⟨h1, ?_⟩
  simp only [recomb_start, List.length_nil] at h2
  push_cast at h2
  omega

theorem C16_loop_exit_witness :
    (2 : Int) ≤ ((2 : Nat) : Int) ∧
      (2 : Int) = ((4 : Nat) : Int) - 2 * (([(0, 3)] : List (Nat × Nat)).length : Int) :=
  C16_loop_exit four_population 4 4 four_population.individuals
    [0, 0, 1800000000, 500000000, 2000000000]
    { j := 2, i := 2, idx := [3, 1, 2, 2],
      inds := [['+', '/', 'a', 'a', 'a'], ['*', '*', 'a', 'a', 'a'],
               ['-', '-', 'a', 'a', 'a'], ['/', '+', 'a', 'a', 'a']],
      draws := [], pairs := [(0, 3)], sizes := [4] }
    (by decide!)

theorem read_at_ok (arr : List Char) (i : Int) (c : Char) (h : read_at arr i = Outcome.ok c) :
    0 ≤ i ∧ arr[i.toNat]? = some c := by
  unfold read_at at h
  by_cases hi : i < 0
  · simp [hi] at h
  · simp only [hi, if_false] at h
    cases hg : arr[i.toNat]? with
    | none => rw [hg] at h; cases h
    | some d =>
      rw [hg] at h
      cases h
      exact ⟨by omega, rfl⟩

theorem bind_some_ok (o : Outcome Char) (s : Char)
    (h : (o.bind fun c => Outcome.ok (some c)) = Outcome.ok (some s)) : o = Outcome.ok s := by
  cases o with
  | ok v =>
    simp only [Outcome.bind, Outcome.ok.injEq, Option.some.injEq] at h
    rw [h]
  | abort => cases h
  | undef => cases h
  | timeout => cases h

/-- What head mutation can store: a terminal other than the first one, or a function. -/
theorem head_mutation_range (g : gep_genome_t) (a : Int) (rv : ℚ) (s : Char)
    (ha : a < (g.head_length : Int))
    (hw : mutation_symbol g a rv = Outcome.ok (some s)) :
    s ∈ g.terminals.drop 1 ∨ s ∈ g.functions := by
  unfold mutation_symbol at hw
  have hna : ¬ a ≥ (g.head_length : Int) := by omega
  simp only [hna, if_false] at hw
  split at hw
  · rename_i hb
    have h1 := read_at_ok _ _ _ (bind_some_ok _ _ hw)
    left
    obtain ⟨m, hm⟩ : ∃ m, (to_int (rv * ((g.num_terminals + g.num_functions : Nat) : ℚ)) -
        (g.num_functions : Int)).toNat = m + 1 :=
      ⟨(to_int (rv * ((g.num_terminals + g.num_functions : Nat) : ℚ)) -
        (g.num_functions : Int)).toNat - 1, by omega⟩
    rw [hm] at h1
    have h2 : (g.terminals.drop 1)[m]? = some s := by
      rw [List.getElem?_drop]
      rw [show 1 + m = m + 1 by omega]
      exact h1.2
    exact List.getElem?_mem h2
  · have h1 := read_at_ok _ _ _ (bind_some_ok _ _ hw)
    right
    exact List.getElem?_mem h1.2

/-- C17, the code on the genome of the driver: at a head position, whatever the draw `rv`
    is, mutation never stores the terminal `'a'`; the branch `b > num_functions` reads
    `terminals[b - num_functions]`, so `terminals[0]` is out of reach. -/
theorem C17_terminal_never_chosen (a : Int) (rv : ℚ) (ha : a < 150) :
    mutation_symbol driver_genome a rv ≠ Outcome.ok (some 'a') := by
  intro h
  have := head_mutation_range driver_genome a rv 'a' ha h
  revert this
  decide

theorem C17_terminal_never_chosen_witness :
    mutation_symbol driver_genome 0 (1 / 10) ≠ Outcome.ok (some 'a') :=
  C17_terminal_never_chosen 0 (1 / 10) (by decide)

/-- C18, the code on two entries of equal fitness and different index: `flcompare` reports
    them equal (0); the entry with the lower index is not ordered first. -/
theorem C18_ties_compare_equal :
    flcompare { fv := 1, idx := 0 } { fv := 1, idx := 1 } = 0 ∧
      flcompare { fv := 1, idx := 1 } { fv := 1, idx := 0 } = 0 ∧
      ¬ flcompare { fv := 1, idx := 0 } { fv := 1, idx := 1 } < 0 := by
  refine ⟨by decide!, by decide!, by decide!⟩

/-- C18 as amended: `flcompare` orders two entries by fitness descending (negative when
    `a.fv > b.fv`, positive when `a.fv < b.fv`) and reports two entries of equal fitness as
    equal (0), whatever their indices are; `idx` is not looked at. -/
theorem C18_flcompare_order (a b : flist_t) :
    (a.fv > b.fv → flcompare a b < 0) ∧ (a.fv < b.fv → flcompare a b > 0) ∧
      (a.fv = b.fv → flcompare a b = 0) ∧
      ∀ i j : Int, flcompare { fv := a.fv, idx := i } { fv := b.fv, idx := j } =
        flcompare a b := by
  refine ⟨?_, ?_, ?_, ?_⟩
  · intro h
    simp [flcompare, h]
  · intro h
    have h1 : ¬ a.fv > b.fv := not_lt.mpr (le_of_lt h)
    have h2 : ¬ a.fv = b.fv := ne_of_lt h
    simp [flcompare, h1, h2]
  · intro h
    simp [flcompare, h]
  · intro i j
    rfl

theorem C18_flcompare_order_witness :
    ((3 : ℚ) > 2 → flcompare { fv := 3, idx := 5 } { fv := 2, idx := 1 } < 0) ∧
      ((3 : ℚ) < 2 → flcompare { fv := 3, idx := 5 } { fv := 2, idx := 1 } > 0) ∧
      ((3 : ℚ) = 2 → flcompare { fv := 3, idx := 5 } { fv := 2, idx := 1 } = 0) ∧
      ∀ i j : Int, flcompare { fv := 3, idx := i } { fv := 2, idx := j } =
        flcompare { fv := 3, idx := 5 } { fv := 2, idx := 1 } :=
  C18_flcompare_order { fv := 3, idx := 5 } { fv := 2, idx := 1 }

/-- C19, the code on every call that returns: the population holds `ni`, `px1`, `px2`,
    `pm` and the genome, but nothing is assigned to `max_fitness`; the argument `mf` is
    dropped. -/
theorem C19_max_fitness_not_stored (genome : gep_genome_t) (ni : Int) (px1 px2 pm mf : ℚ)
    (draws rest : List Nat) (pop : gep_population_t)
    (h : gep_create_population genome ni px1 px2 pm mf draws = Outcome.ok (pop, rest)) :
    (pop.num_individuals : Int) = ni ∧ pop.p_x1 = px1 ∧ pop.p_x2 = px2 ∧ pop.p_m = pm ∧
      pop.genome = genome ∧ pop.max_fitness = none ∧ pop.max_fitness ≠ some mf := by
  unfold gep_create_population at h
  by_cases h1 : ni > 0
  · simp only [h1, not_true_eq_false, if_false] at h
    split at h
    · cases h
    · split at h
      · cases h
      · split at h
        · cases h
        · split at h
          · cases h
          · split at h
            · cases h
            · split at h
              · cases h
              · cases hc : create_individuals genome ni.toNat draws with
                | ok r =>
                  rw [hc] at h
                  simp only [Outcome.bind, Outcome.ok.injEq, Prod.mk.injEq] at h
                  obtain ⟨hp, _⟩ := h
                  subst hp
                  refine ⟨?_, rfl, rfl, rfl, rfl, rfl, by simp⟩
                  show ((ni.toNat : Nat) : Int) = ni
                  omega
                | abort => rw [hc] at h; cases h
                | undef => rw [hc] at h; cases h
                | timeout => rw [hc] at h; cases h
  · simp only [h1, not_false_eq_true, if_true] at h
    cases h

theorem C19_max_fitness_not_stored_witness :
    ((({ genome := short_genome, p_x1 := 34 / 100, p_x2 := 4 / 10, p_m := 3 / 10,
          num_individuals := 1, individuals := [['*', '*', 'a', 'a', 'a']],
          selectionbuffer := [List.replicate 5 (Char.ofNat 0)], fitnesses := [0],
          max_fitness := none } : gep_population_t).num_individuals : Int) = 1) ∧
      (34 : ℚ) / 100 = 34 / 100 ∧ (4 : ℚ) / 10 = 4 / 10 ∧ (3 : ℚ) / 10 = 3 / 10 ∧
      short_genome = short_genome ∧ (none : Option ℚ) = none ∧
      (none : Option ℚ) ≠ some 4000 :=
  C19_max_fitness_not_stored short_genome 1 (34 / 100) (4 / 10) (3 / 10) 4000
    [500000000, 500000000, 0, 0, 0, 7] [7]
    { genome := short_genome, p_x1 := 34 / 100, p_x2 := 4 / 10, p_m := 3 / 10,
      num_individuals := 1, individuals := [['*', '*', 'a', 'a', 'a']],
      selectionbuffer := [List.replicate 5 (Char.ofNat 0)], fitnesses := [0],
      max_fitness := none }
    (by decide!)

theorem recombination_run_sizes (p : gep_population_t) :
    ∀ (fuel : Nat) (s s2 : recomb_state), recombination_run p fuel s = Outcome.ok s2 →
      (1 ≤ s.j ∨ 2 ≤ s.i) → (∀ z ∈ s.sizes, (2 : Int) ≤ z) → ∀ z ∈ s2.sizes, (2 : Int) ≤ z := by
  intro fuel
  induction fuel with
  | zero =>
    intro s s2 h _ hs
    unfold recombination_run at h
    by_cases hj : (s.j : Int) < s.i
    · simp only [hj, if_true] at h
      cases h
    · simp only [hj, if_false, Outcome.ok.injEq] at h
      subst h
      exact hs
  | succ f ih =>
    intro s s2 h hji hs
    unfold recombination_run at h
    by_cases hj : (s.j : Int) < s.i
    · simp only [hj, if_true] at h
      cases hd : s.draws with
      | nil => rw [hd] at h; cases h
      | cons k1 ds =>
        rw [hd] at h
        simp only at h
        by_cases hx : unit_draw k1 < p.p_x1
        · simp only [hx, if_true] at h
          cases ds with
          | nil => cases h
          | cons k2 ds2 =>
            simp only at h
            obtain ⟨r, _, h⟩ := bind_eq_ok _ _ _ h
            obtain ⟨rp, _, h⟩ := bind_eq_ok _ _ _ h
            cases hr2 : r.2 with
            | nil => rw [hr2] at h; cases h
            | cons k4 ds4 =>
              rw [hr2] at h
              simp only at h
              split at h
              · cases h
              · obtain ⟨inds2, _, h⟩ := bind_eq_ok _ _ _ h
                refine ih _ _ h (Or.inl (by show 1 ≤ s.j + 1; omega)) ?_
                intro z hz
                simp only [List.mem_append, List.mem_singleton] at hz
                rcases hz with hz | hz
                · exact hs z hz
                · subst hz
                  rcases hji with h1 | h1
                  · omega
                  · exact h1
        · simp only [hx, if_false] at h
          exact ih _ _ h (Or.inl (by show 1 ≤ s.j + 1; omega)) hs
    · simp only [hj, if_false, Outcome.ok.injEq] at h
      subst h
      exact hs

/-- With at least two individuals, every pair of the recombination loop is drawn from a
    pool of size `i ≥ 2`. -/
theorem pool_size_at_pairing (p : gep_population_t) (n fuel : Nat) (hn : 2 ≤ n)
    (inds : List (List Char)) (draws : List Nat) (s2 : recomb_state)
    (h : recombination_run p fuel (recomb_start n inds draws) = Outcome.ok s2) :
    ∀ z ∈ s2.sizes, (2 : Int) ≤ z := by
  refine recombination_run_sizes p fuel _ _ h (Or.inr ?_) ?_
  · show (2 : Int) ≤ (n : Int)
    exact_mod_cast hn
  · intro z hz
    simp [recomb_start] at hz

theorem to_int_unit (x : ℚ) (h0 : 0 ≤ x) (h1 : x < 1) : to_int x = 0 := by
  unfold to_int
  rw [if_pos h0, rat_floor_eq, Int.floor_eq_zero_iff]
  exact ⟨h0, h1⟩

theorem draw_other_stuck : ∀ (ds : List Nat), (∀ k ∈ ds, k < RAND_MAX) →
    draw_other 1 0 ds = Outcome.timeout := by
  intro ds
  induction ds with
  | nil => intro _; rfl
  | cons k ds ih =>
    intro h
    unfold draw_other
    have hk := unit_draw_range k (h k (List.mem_cons_self _ _))
    have e : to_int (((1 : Int) : ℚ) * unit_draw k) = 0 := by
      rw [Int.cast_one, one_mul]
      exact to_int_unit _ hk.1 hk.2
    simp only [e, if_true]
    exact ih (fun j hj => h j (List.mem_cons_of_mem _ hj))

/-- C20, the code on a population of one individual, a size that `gep_create_population`
    accepts: after the draws `2000000000` (no mutation), `0` (recombine) and `0` (`a = 0`)
    a pair is drawn from a pool of size `i = 1`.  No `b ≠ a` exists in `[0, 1)`: on draws
    below `RAND_MAX` the loop `while (b == a)` never ends, however many draws follow; on a
    draw equal to `RAND_MAX` it ends with `b = 1`, and `idx[1]` (then `idx[i-2] = idx[-1]`)
    is read outside of the index array. -/
theorem C20_single_individual_pairing (ds : List Nat) (h : ∀ k ∈ ds, k < RAND_MAX) :
    gep_create_population short_genome 1 (3 / 10) 0 (1 / 2) 4000
        [500000000, 500000000, 0, 0, 0] = Outcome.ok (single_population, []) ∧
      gep_next_generation single_population (2000000000 :: 0 :: 0 :: ds) =
        Outcome.timeout ∧
      gep_next_generation single_population (2000000000 :: 0 :: 0 :: RAND_MAX :: ds) =
        Outcome.undef := by
  have hm : ∀ rest : List Nat, mutation_loop single_population 1 0
      single_population.individuals (2000000000 :: rest) =
        Outcome.ok (single_population.individuals, rest) := by
    intro rest
    have h1 : ¬ unit_draw 2000000000 < single_population.p_m := by decide!
    have e0 : single_population.individuals[0]? = some ['*', '*', 'a', 'a', 'a'] := rfl
    unfold mutation_loop
    simp only [e0]
    unfold mutate_individual
    simp only [h1, if_false, bind_ok]
    unfold mutation_loop
    rfl
  have hx : unit_draw 0 < single_population.p_x1 := by decide!
  have ha : to_int (((1 : Int) : ℚ) * unit_draw 0) = 0 := by decide!
  have hj : ((0 : Nat) : Int) < (1 : Int) := by decide
  have hN : single_population.num_individuals = 1 := rfl
  have hc : ((1 : Nat) : Int) = 1 := rfl
  have hstuck : recombination_loop single_population 1 0 1 (List.range 1)
      single_population.individuals (0 :: 0 :: ds) = Outcome.timeout := by
    unfold recombination_loop
    simp only [hj, if_true, hx, ha, draw_other_stuck ds h]
    rfl
  have hb : draw_other 1 0 (RAND_MAX :: ds) = Outcome.ok (1, ds) := by
    unfold draw_other
    have e : to_int (((1 : Int) : ℚ) * unit_draw RAND_MAX) = 1 := by decide!
    simp only [e]
    rfl
  have hout : recombination_loop single_population 1 0 1 (List.range 1)
      single_population.individuals (0 :: 0 :: RAND_MAX :: ds) = Outcome.undef := by
    unfold recombination_loop
    simp only [hj, if_true, hx, ha, hb, bind_ok]
    rfl
  refine ⟨by decide!, ?_, ?_⟩
  · unfold gep_next_generation
    rw [hN, hm, bind_ok, hc, hstuck]
    rfl
  · unfold gep_next_generation
    rw [hN, hm, bind_ok, hc, hout]
    rfl

theorem C20_single_individual_pairing_witness :
    gep_create_population short_genome 1 (3 / 10) 0 (1 / 2) 4000
        [500000000, 500000000, 0, 0, 0] = Outcome.ok (single_population, []) ∧
      gep_next_generation single_population (2000000000 :: 0 :: 0 :: [5, 1000000000, 0]) =
        Outcome.timeout ∧
      gep_next_generation single_population
          (2000000000 :: 0 :: 0 :: RAND_MAX :: [5, 1000000000, 0]) = Outcome.undef :=
  C20_single_individual_pairing [5, 1000000000, 0] (by decide)

/-! ### Zero rates -/

theorem unit_draw_nonneg (k : Nat) : 0 ≤ unit_draw k := by
  unfold unit_draw
  exact div_nonneg (Nat.cast_nonneg k) (Nat.cast_nonneg RAND_MAX)

theorem mutate_individual_zero (p : gep_population_t) (hm : p.p_m = 0) (ind : List Char)
    (k : Nat) (ds : List Nat) :
    mutate_individual p ind (k :: ds) = Outcome.ok (ind, ds) := by
  unfold mutate_individual
  have h : ¬ unit_draw k < p.p_m := by
    rw [hm]
    exact not_lt.mpr (unit_draw_nonneg k)
  simp only [h, if_false]

theorem set_same (inds : List (List Char)) (i : Nat) (ind : List Char)
    (h : inds[i]? = some ind) : inds.set i ind = inds := by
  apply List.ext_getElem?
  intro n
  rw [List.getElem?_set]
  by_cases hn : i = n
  · subst hn
    have hlt : i < inds.length := by
      by_contra hcon
      rw [List.getElem?_eq_none (by omega)] at h
      cases h
    rw [if_pos rfl, if_pos hlt, h]
  · rw [if_neg hn]

theorem mutation_loop_zero (p : gep_population_t) (hm : p.p_m = 0) :
    ∀ (todo i : Nat) (inds : List (List Char)) (draws : List Nat),
      i + todo ≤ inds.length →
      mutation_loop p todo i inds draws =
        if todo ≤ draws.length then Outcome.ok (inds, draws.drop todo)
        else Outcome.timeout := by
  intro todo
  induction todo with
  | zero =>
    intro i inds draws _
    unfold mutation_loop
    rw [if_pos (Nat.zero_le _)]
    rfl
  | succ t ih =>
    intro i inds draws hi
    have hget : inds[i]? = some inds[i] := List.getElem?_eq_getElem (by omega)
    cases draws with
    | nil =>
      unfold mutation_loop
      simp only [hget]
      rfl
    | cons k ds =>
      unfold mutation_loop
      simp only [hget, mutate_individual_zero p hm, bind_ok,
        set_same inds i inds[i] hget]
      rw [ih (i + 1) inds ds (by omega)]
      by_cases hd : t ≤ ds.length
      · rw [if_pos hd, if_pos (by simpa using hd)]
        rfl
      · rw [if_neg hd, if_neg (by simpa using hd)]

theorem recombination_loop_zero (p : gep_population_t) (hx : p.p_x1 = 0) :
    ∀ (fuel j : Nat) (i : Int) (idx : List Nat) (inds : List (List Char))
      (draws : List Nat),
      i - (j : Int) ≤ (fuel : Int) →
      recombination_loop p fuel j i idx inds draws =
        if (i - (j : Int)).toNat ≤ draws.length then
          Outcome.ok (inds, draws.drop (i - (j : Int)).toNat)
        else Outcome.timeout := by
  intro fuel
  induction fuel with
  | zero =>
    intro j i idx inds draws hf
    have hj : ¬ (j : Int) < i := by
      simp only [Nat.cast_zero] at hf
      omega
    unfold recombination_loop
    simp only [hj, if_false]
    have e : (i - (j : Int)).toNat = 0 := by omega
    rw [e, if_pos (Nat.zero_le _)]
    rfl
  | succ f ih =>
    intro j i idx inds draws hf
    by_cases hj : (j : Int) < i
    · have e : (i - (j : Int)).toNat = (i - ((j + 1 : Nat) : Int)).toNat + 1 := by
        push_cast
        omega
      cases draws with
      | nil =>
        unfold recombination_loop
        simp only [hj, if_true]
        rw [if_neg (by simp only [List.length_nil]; omega)]
      | cons k ds =>
        have h : ¬ unit_draw k < p.p_x1 := by
          rw [hx]
          exact not_lt.mpr (unit_draw_nonneg k)
        unfold recombination_loop
        simp only [hj, if_true, h, if_false]
        rw [ih (j + 1) i idx inds ds (by push_cast at hf ⊢; omega), e]
        by_cases hd : (i - ((j + 1 : Nat) : Int)).toNat ≤ ds.length
        · rw [if_pos hd, if_pos (by simpa using hd)]
          rfl
        · rw [if_neg hd, if_neg (by simpa using hd)]
    · unfold recombination_loop
      simp only [hj, if_false]
      have e : (i - (j : Int)).toNat = 0 := by omega
      rw [e, if_pos (Nat.zero_le _)]
      rfl

/-- On a population with both rates 0, `gep_next_generation` consumes two draws for each
    individual and returns the population as it was. -/
theorem gep_next_generation_zero (p : gep_population_t) (draws : List Nat)
    (hm : p.p_m = 0) (hx : p.p_x1 = 0) (hn : p.num_individuals ≤ p.individuals.length) :
    gep_next_generation p draws =
      if 2 * p.num_individuals ≤ draws.length then
        Outcome.ok (p, draws.drop (2 * p.num_individuals))
      else Outcome.timeout := by
  have hlen : ((p.num_individuals : Int) - ((0 : Nat) : Int)).toNat = p.num_individuals := by
    simp
  unfold gep_next_generation
  rw [mutation_loop_zero p hm p.num_individuals 0 p.individuals draws (by omega)]
  by_cases h1 : p.num_individuals ≤ draws.length
  · rw [if_pos h1, bind_ok]
    simp only
    rw [recombination_loop_zero p hx p.num_individuals 0 (p.num_individuals : Int) _ _ _
      (by simp), hlen]
    by_cases h2 : 2 * p.num_individuals ≤ draws.length
    · rw [if_pos (by rw [List.length_drop]; omega), if_pos h2, bind_ok]
      simp only [List.drop_drop]
      rw [show p.num_individuals + p.num_individuals = 2 * p.num_individuals by omega]
    · rw [if_neg (by rw [List.length_drop]; omega), if_neg h2]
      rfl
  · rw [if_neg h1, if_neg (by omega)]
    rfl

/-- C21. Zero rates leave the population unchanged: for every population with `p_m = 0` and
    `p_x1 = 0` (its `individuals` array holding `num_individuals` entries) and every
    sequence of draws of `rand()`, `gep_next_generation` consumes two draws for each
    individual and returns with every chromosome of the live population, the selection
    buffer, the fitness vector and all other fields exactly as they were; on a list of
    draws that ends before that, the run is still waiting for a draw, and on no list of
    draws does it return anything else. -/
theorem C21_zero_rates_frame (p : gep_population_t) (draws : List Nat) (hm : p.p_m = 0)
    (hx : p.p_x1 = 0) (hn : p.num_individuals ≤ p.individuals.length) :
    (2 * p.num_individuals ≤ draws.length →
        gep_next_generation p draws =
          Outcome.ok (p, draws.drop (2 * p.num_individuals))) ∧
      (draws.length < 2 * p.num_individuals →
        gep_next_generation p draws = Outcome.timeout) ∧
      ∀ q rest, gep_next_generation p draws = Outcome.ok (q, rest) →
        q = p ∧ q.individuals = p.individuals ∧ q.selectionbuffer = p.selectionbuffer ∧
          q.fitnesses = p.fitnesses := by
  have hrun := gep_next_generation_zero p draws hm hx hn
  refine ⟨?_, ?_, ?_⟩
  · intro hd
    rw [hrun, if_pos hd]
  · intro hd
    rw [hrun, if_neg (by omega)]
  · intro q rest hq
    rw [hrun] at hq
    by_cases hd : 2 * p.num_individuals ≤ draws.length
    · rw [if_pos hd] at hq
      simp only [Outcome.ok.injEq, Prod.mk.injEq] at hq
      rw [← hq.1]
      exact ⟨rfl, rfl, rfl, rfl⟩
    · rw [if_neg hd] at hq
      cases hq

theorem C21_zero_rates_frame_witness :
    still_population.p_m = 0 ∧ still_population.p_x1 = 0 ∧
      still_population.num_individuals ≤ still_population.individuals.length ∧
      gep_next_generation still_population [5, 2147483647, 17, 0, 9] =
        Outcome.ok (still_population, [9]) :=
  ⟨rfl, rfl, by decide,
    (C21_zero_rates_frame still_population [5, 2147483647, 17, 0, 9] rfl rfl
      (by decide)).1 (by decide)⟩

end GEP
